import Mathlib

/-!
The voice-chat-server room / recording-session state machine.

A shallow embedding of `src/server.js` (class `Room`, the socket.io event
handlers and `stopRoomRecording`) together with theorems about it.

Modelling conventions

* Identifiers (`userId`, `roomId`, `socket.id`) are natural-number tokens that
  stand for *truthy* JavaScript values; a missing or falsy message field is
  `none`.
* A JavaScript `Map` is an association list in insertion order (`JsMap`).
* Buffers are lists of bytes; base64 transfer encoding is the identity.
* Wall-clock values (`Date.now()`, `joinedAt`, `lastActivity`, `startTime`,
  `duration`, `timestamp`) are left out; no control flow depends on them.
* The file system is an oracle `Env` saying which calls throw; file contents
  are not modelled.
* An uncaught exception is the result `Res.threw`, carrying the heap at the
  moment of the throw.  The server installs no `uncaughtException` handler, so
  the Node process ends there.
-/

namespace VoiceChat

abbrev UserId := Nat
abbrev RoomId := Nat
abbrev SocketId := Nat
abbrev Bytes := List Nat

/-- Exceptions the modelled code can raise. -/
inductive JsError where
  | typeError
  | rangeError
  deriving DecidableEq, Repr

/-- Result of running code on a state `σ`: a normal return with value `a`, or an
exception that nothing catches; `s` is the state when control left. -/
inductive Res (σ α : Type) where
  | ok (s : σ) (a : α)
  | threw (s : σ) (e : JsError)
  deriving DecidableEq, Repr

/-! ## JavaScript `Map` as an insertion-ordered association list -/

namespace JsMap

/-- JavaScript `Map.prototype.get`. -/
def get {β : Type} : List (Nat × β) → Nat → Option β
  | [], _ => none
  | (k', v) :: m, k => if k' = k then some v else get m k

/-- JavaScript `Map.prototype.has`. -/
def has {β : Type} : List (Nat × β) → Nat → Bool
  | [], _ => false
  | (k', _) :: m, k => if k' = k then true else has m k

/-- JavaScript `Map.prototype.set`: an existing key keeps its position, a new key goes last. -/
def set {β : Type} : List (Nat × β) → Nat → β → List (Nat × β)
  | [], k, v => [(k, v)]
  | (k', v') :: m, k, v => if k' = k then (k, v) :: m else (k', v') :: set m k v

/-- JavaScript `Map.prototype.delete` (the boolean it returns is `has` beforehand). -/
def delete {β : Type} : List (Nat × β) → Nat → List (Nat × β)
  | [], _ => []
  | (k', v) :: m, k => if k' = k then delete m k else (k', v) :: delete m k

/-- JavaScript `Map.prototype.keys`, as an array. -/
def keys {β : Type} (m : List (Nat × β)) : List Nat := m.map Prod.fst

/-- JavaScript `Map.prototype.values`, as an array. -/
def values {β : Type} (m : List (Nat × β)) : List β := m.map Prod.snd

/-- JavaScript `Map.prototype.size`. -/
def size {β : Type} (m : List (Nat × β)) : Nat := m.length

end JsMap

/-! ## Data model -/

/-- Entry of `Room.users`: `{ userId, socketId, joinedAt }`. -/
structure User where
  userId : UserId
  socketId : SocketId
  deriving DecidableEq, Repr

/-- Entry of `userRecording.chunks`: `{ data, timestamp, index }`. -/
structure Chunk where
  data : Bytes
  index : Int
  deriving DecidableEq, Repr

/-- Path `recordings/<session.id>-user-<userId>.webm`. -/
structure FilePath where
  session : RoomId
  user : UserId
  deriving DecidableEq, Repr

/-- Entry of `Room.userRecordings`: `{ userId, chunks, startTime, filePath, stream }`.
A registered recorder always has an open stream, which is not modelled. -/
structure UserRecording where
  userId : UserId
  chunks : List Chunk
  filePath : FilePath
  deriving DecidableEq, Repr

/-- Value of `Room.recordingSession`: `{ id, startTime, timestamp, users }`; `id` is
`session-<room id>-<timestamp>`, kept as the room id. -/
structure RecordingSession where
  id : RoomId
  users : List UserId
  deriving DecidableEq, Repr

/-- State of a `Room` object. -/
structure Room where
  id : RoomId
  users : List (UserId × User)
  isRecording : Bool
  recordingSession : Option RecordingSession
  userRecordings : List (UserId × UserRecording)
  deriving DecidableEq, Repr

/-- Object returned by `stopUserRecording`. -/
structure RecordingResult where
  userId : UserId
  filePath : FilePath
  size : Nat
  chunks : Nat
  base64 : Bytes
  deriving DecidableEq, Repr

/-- Object `sessionSummary` built by `stopRecordingSession`. -/
structure SessionSummary where
  sessionId : RoomId
  roomId : RoomId
  userRecordings : List RecordingResult
  totalFiles : Nat
  totalSize : Nat
  deriving DecidableEq, Repr

/-- Object returned by `stopRecordingSession`: `{ success: false, error }` is `none`,
`{ success: true, session, userRecordings }` is `some`. -/
abbrev StopResult := Option (SessionSummary × List RecordingResult)

/-- Object returned by `getUserRecordingData`. -/
structure RecordingData where
  userId : UserId
  audioData : Bytes
  size : Nat
  chunks : Nat
  deriving DecidableEq, Repr

/-- What the environment decides: which file-system calls throw, and how deep the
call stack may grow. -/
structure Env where
  /-- Does `fs.createWriteStream(path)` return a stream (`true`) or throw (`false`). -/
  createWriteStream : FilePath → Bool
  /-- Does the `try` block of `stopUserRecording` (existsSync, statSync,
  writeFileSync) run to its end (`true`) or throw (`false`). -/
  writeFinal : FilePath → Bool
  /-- Number of nested calls of `addUserAudioChunk` the stack has room for. -/
  stackDepth : Nat

/-! ## class Room -/

/-- Constructor `new Room(id)`. -/
def Room.new (id : RoomId) : Room :=
  { id := id, users := [], isRecording := false, recordingSession := none,
    userRecordings := [] }

/-- JavaScript `x || d` on numbers: `0` is falsy. -/
def jsOr (x d : Int) : Int := if x = 0 then d else x

/-- Expression `chunkIndex || userRecording.chunks.length`, with `none` for `undefined`. -/
def indexOr (chunkIndex : Option Int) (length : Nat) : Int :=
  match chunkIndex with
  | none => (length : Int)
  | some i => jsOr i (length : Int)

/-- Expression `chunks.sort((a, b) => (a.index || 0) - (b.index || 0))`: `Array.prototype.sort`
is stable, so this is the stable sort by `index || 0`. -/
def sortChunks (chunks : List Chunk) : List Chunk :=
  chunks.insertionSort (fun a b => jsOr a.index 0 ≤ jsOr b.index 0)

/-- Expression `Buffer.concat(sortedChunks.map((chunk) => chunk.data))`. -/
def combine (sortedChunks : List Chunk) : Bytes :=
  (sortedChunks.map Chunk.data).flatten

/-- Method `addUser(userId, socketId)`. -/
def Room.addUser (room : Room) (userId : UserId) (socketId : SocketId) : Room :=
  { room with users := JsMap.set room.users userId { userId := userId, socketId := socketId } }

/-- Method `getUserCount()`. -/
def Room.getUserCount (room : Room) : Nat := JsMap.size room.users

/-- Method `getUsers()`. -/
def Room.getUsers (room : Room) : List User := JsMap.values room.users

/-- Method `hasUser(userId)`. -/
def Room.hasUser (room : Room) (userId : UserId) : Bool := JsMap.has room.users userId

/-- Method `stopUserRecording(userId)`: the room afterwards and the returned object
(`none` for `null`). -/
def Room.stopUserRecording (env : Env) (room : Room) (userId : UserId) :
    Room × Option RecordingResult :=
  match JsMap.get room.userRecordings userId with
  | none => (room, none)
  | some userRecording =>
    let removed := { room with userRecordings := JsMap.delete room.userRecordings userId }
    if 0 < userRecording.chunks.length then
      if env.writeFinal userRecording.filePath then
        let sortedChunks := sortChunks userRecording.chunks
        let combinedBuffer := combine sortedChunks
        (removed, some { userId := userId, filePath := userRecording.filePath,
                         size := combinedBuffer.length,
                         chunks := userRecording.chunks.length,
                         base64 := combinedBuffer })
      else (removed, none)
    else (removed, none)

/-- Method `removeUser(userId)`. -/
def Room.removeUser (env : Env) (room : Room) (userId : UserId) : Room × Bool :=
  let removed := JsMap.has room.users userId
  let room1 := { room with users := JsMap.delete room.users userId }
  if removed then
    if room1.isRecording && JsMap.has room1.userRecordings userId then
      ((room1.stopUserRecording env userId).1, true)
    else (room1, true)
  else (room1, false)

/-- Method `startUserRecording(userId)`.  Reading `this.recordingSession.id` while the
session is `null` is a TypeError raised before the `try`. -/
def Room.startUserRecording (env : Env) (room : Room) (userId : UserId) : Res Room Bool :=
  if !room.isRecording || JsMap.has room.userRecordings userId then .ok room false
  else
    match room.recordingSession with
    | none => .threw room .typeError
    | some session =>
      let filePath : FilePath := { session := session.id, user := userId }
      if env.createWriteStream filePath then
        let userRecording : UserRecording :=
          { userId := userId, chunks := [], filePath := filePath }
        .ok { room with
              userRecordings := JsMap.set room.userRecordings userId userRecording } true
      else .ok room false

/-- The loop `this.users.forEach((user, userId) => this.startUserRecording(userId))`. -/
def Room.startEach (env : Env) : List UserId → Room → Res Room Unit
  | [], room => .ok room ()
  | userId :: rest, room =>
    match room.startUserRecording env userId with
    | .ok room1 _ => Room.startEach env rest room1
    | .threw room1 e => .threw room1 e

/-- Method `startRecordingSession()`. -/
def Room.startRecordingSession (env : Env) (room : Room) : Res Room RecordingSession :=
  let session : RecordingSession := { id := room.id, users := JsMap.keys room.users }
  let room1 := { room with isRecording := true, recordingSession := some session }
  match Room.startEach env (JsMap.keys room1.users) room1 with
  | .ok room2 _ => .ok room2 session
  | .threw room2 e => .threw room2 e

/-- The loop `this.userRecordings.forEach(...)` of `stopRecordingSession`: every
entry is visited once, in insertion order; the callback deletes only the entry
it visits. -/
def Room.stopEach (env : Env) :
    List UserId → Room → List RecordingResult → Room × List RecordingResult
  | [], room, results => (room, results)
  | userId :: rest, room, results =>
    match room.stopUserRecording env userId with
    | (room1, some result) => Room.stopEach env rest room1 (results ++ [result])
    | (room1, none) => Room.stopEach env rest room1 results

/-- Method `stopRecordingSession()`.  Reading `this.recordingSession.id` while the session
is `null` is a TypeError. -/
def Room.stopRecordingSession (env : Env) (room : Room) : Res Room StopResult :=
  if !room.isRecording then .ok room none
  else
    let room1 := { room with isRecording := false }
    let (room2, results) := Room.stopEach env (JsMap.keys room1.userRecordings) room1 []
    match room2.recordingSession with
    | none => .threw room2 .typeError
    | some session =>
      let sessionSummary : SessionSummary :=
        { sessionId := session.id, roomId := room2.id, userRecordings := results,
          totalFiles := results.length,
          totalSize := results.foldl (fun sum r => sum + r.size) 0 }
      .ok { room2 with recordingSession := none } (some (sessionSummary, results))

/-- Method `addUserAudioChunk(userId, audioData, chunkIndex)` with `stack` nested calls
left; running out of stack is `RangeError: Maximum call stack size exceeded`.
`audioData` is `some bytes` when `Buffer.from(audioData, "base64")` yields
`bytes` and `none` when it throws (caught, `false` is returned). -/
def Room.addUserAudioChunk (env : Env) :
    Nat → Room → UserId → Option Bytes → Option Int → Res Room Bool
  | 0, room, _, _, _ => .threw room .rangeError
  | stack + 1, room, userId, audioData, chunkIndex =>
    match JsMap.get room.userRecordings userId with
    | none =>
      if room.isRecording && JsMap.has room.users userId then
        match room.startUserRecording env userId with
        | .ok room1 _ => Room.addUserAudioChunk env stack room1 userId audioData chunkIndex
        | .threw room1 e => .threw room1 e
      else .ok room false
    | some userRecording =>
      match audioData with
      | none => .ok room false
      | some buffer =>
        let chunk : Chunk :=
          { data := buffer, index := indexOr chunkIndex userRecording.chunks.length }
        let pushed : UserRecording :=
          { userRecording with chunks := userRecording.chunks ++ [chunk] }
        .ok { room with userRecordings := JsMap.set room.userRecordings userId pushed } true

/-- Method `getUserRecordingData(userId)`: `Array.prototype.sort` sorts
`userRecording.chunks` in place, so the room is returned too. -/
def Room.getUserRecordingData (room : Room) (userId : UserId) : Room × Option RecordingData :=
  match JsMap.get room.userRecordings userId with
  | none => (room, none)
  | some userRecording =>
    if userRecording.chunks.length = 0 then (room, none)
    else
      let sortedChunks := sortChunks userRecording.chunks
      let combinedBuffer := combine sortedChunks
      let sorted : UserRecording := { userRecording with chunks := sortedChunks }
      ({ room with userRecordings := JsMap.set room.userRecordings userId sorted },
       some { userId := userId, audioData := combinedBuffer, size := combinedBuffer.length,
              chunks := userRecording.chunks.length })

/-- Object returned by `getRecordingStatus`. -/
structure RecordingStatus where
  isRecording : Bool
  session : Option RecordingSession
  activeRecordings : List UserId
  /-- The entries `{ userId, chunks, size }`. -/
  userRecordingStats : List (UserId × Nat × Nat)
  deriving DecidableEq, Repr

/-- Method `getRecordingStatus()`. -/
def Room.getRecordingStatus (room : Room) : RecordingStatus :=
  { isRecording := room.isRecording,
    session := room.recordingSession,
    activeRecordings := JsMap.keys room.userRecordings,
    userRecordingStats := room.userRecordings.map (fun e =>
      (e.1, e.2.chunks.length, e.2.chunks.foldl (fun sum chunk => sum + chunk.data.length) 0)) }

/-! ## Server state, messages and events -/

/-- Value in `userSockets`: `{ userId, roomId }`. -/
structure UserInfo where
  userId : UserId
  roomId : RoomId
  deriving DecidableEq, Repr

/-- The two global maps and the socket.io adapter. -/
structure Server where
  rooms : List (RoomId × Room)
  userSockets : List (SocketId × UserInfo)
  /-- The pairs (socket, socket.io room it is in).  On connection a socket is put in
  the room named by its own id. -/
  joined : List (SocketId × RoomId)
  deriving DecidableEq, Repr

/-- The server before any connection. -/
def Server.empty : Server := { rooms := [], userSockets := [], joined := [] }

/-- The `error` strings of the responses. -/
inductive ErrorText where
  | missingRoomIdOrUserId
  | recordingAlreadyInProgress
  | noRecordingInProgress
  | roomNotFound
  | userNotFoundInRoom
  | failedToAddAudioChunk
  | recordingNotActive
  | userNotFound
  deriving DecidableEq, Repr

/-- The `audioData` field of an `audio-chunk` message: falsy (missing or empty), truthy
but rejected by `Buffer.from`, or a base64 string standing for `bytes`. -/
inductive AudioData where
  | falsy
  | undecodable
  | base64 (bytes : Bytes)
  deriving DecidableEq, Repr

/-- Truthiness of the `audioData` field. -/
def AudioData.truthy : AudioData → Bool
  | .falsy => false
  | _ => true

/-- What `Buffer.from(audioData, "base64")` yields, `none` when it throws. -/
def AudioData.decoded : AudioData → Option Bytes
  | .base64 bytes => some bytes
  | _ => none

/-- The entries `{ userId, filename, size, chunks }` of `recording-stopped`. -/
structure RecordingInfo where
  userId : UserId
  filename : FilePath
  size : Nat
  chunks : Nat
  deriving DecidableEq, Repr

/-- Server-to-client messages, named after their event; the human-readable `message`
fields and the timestamps are left out. -/
inductive Msg where
  | roomJoinError (error : ErrorText)
  | userJoined (userId : UserId) (socketId : SocketId)
  | roomJoined (roomId : RoomId) (userId : UserId) (users : List User) (isRecording : Bool)
      (totalUsers : Nat)
  | roomUpdated (roomId : RoomId) (totalUsers : Nat) (users : List User)
  | userLeft (userId : UserId) (remainingUsers : Option Nat)
  | recordingStarted (roomId : RoomId) (sessionId : RoomId)
  | recordingStartResponse (success : Bool) (sessionId : Option RoomId)
      (error : Option ErrorText)
  | recordingStopped (roomId : RoomId) (sessionId : RoomId)
      (userRecordings : List RecordingInfo) (totalFiles : Nat) (totalSize : Nat)
  | recordingStopResponse (success : Bool) (result : StopResult) (error : Option ErrorText)
  | audioChunkReceived (success : Bool) (chunkIndex : Option Int) (totalChunks : Option Nat)
      (userId : Option UserId) (error : Option ErrorText)
  | audioData (userId : UserId) (audioData : AudioData)
  | getRecordingResponse (success : Bool) (userId : Option UserId)
      (data : Option RecordingData) (error : Option ErrorText)
  | recordingStatusResponse (success : Bool) (roomId : Option RoomId)
      (status : Option RecordingStatus) (error : Option ErrorText)
  | webrtcOffer (fromUserId : Option UserId) (targetUserId : UserId) (offer : Nat)
  | webrtcAnswer (fromUserId : Option UserId) (targetUserId : UserId) (answer : Nat)
  | webrtcIceCandidate (fromUserId : Option UserId) (targetUserId : UserId) (candidate : Nat)
  | roomInfoResponse (roomId : RoomId) (users : List User) (totalUsers : Nat)
      (isRecording : Bool)
  | roomInfoError (error : ErrorText)
  deriving DecidableEq, Repr

/-- One `emit`: the connections it is delivered to, resolved when it is made, and the
message. -/
structure Emit where
  recipients : List SocketId
  msg : Msg
  deriving DecidableEq, Repr

/-- Client-to-server events.  Only `join-room` validates its fields, so only there a
missing field is `none`; elsewhere a missing field acts like an identifier that
names nothing.  `connection` and `disconnect` come from socket.io itself. -/
inductive Event where
  | connection
  | joinRoom (roomId : Option RoomId) (userId : Option UserId)
  | leaveRoom (roomId : RoomId) (userId : UserId)
  | startRecording (roomId : RoomId)
  | stopRecording (roomId : RoomId)
  | audioChunk (roomId : RoomId) (audioData : AudioData) (chunkIndex : Option Int)
  | getRecording (roomId : RoomId) (userId : Option UserId)
  | getRecordingStatus (roomId : RoomId)
  | webrtcOffer (roomId : RoomId) (targetUserId : UserId) (offer : Nat)
  | webrtcAnswer (roomId : RoomId) (targetUserId : UserId) (answer : Nat)
  | webrtcIceCandidate (roomId : RoomId) (targetUserId : UserId) (candidate : Nat)
  | disconnect
  | getRoomInfo (roomId : RoomId)
  deriving DecidableEq, Repr

/-- Result of one event handler: it ran to its end (`done`), or an exception left it
(`crashed`); either way with the server state and the emits made so far. -/
inductive Outcome where
  | done (s : Server) (out : List Emit)
  | crashed (s : Server) (out : List Emit) (e : JsError)
  deriving DecidableEq, Repr

/-! ## socket.io primitives -/

/-- Call `socket.join(room)`. -/
def socketJoin (joined : List (SocketId × RoomId)) (socket : SocketId) (room : RoomId) :
    List (SocketId × RoomId) :=
  if (socket, room) ∈ joined then joined else joined ++ [(socket, room)]

/-- Call `socket.leave(room)`. -/
def socketLeave (joined : List (SocketId × RoomId)) (socket : SocketId) (room : RoomId) :
    List (SocketId × RoomId) :=
  joined.filter (fun e => decide (e ≠ (socket, room)))

/-- Leaving every room, which socket.io does for a closing socket before the
`disconnect` listeners run. -/
def socketLeaveAll (joined : List (SocketId × RoomId)) (socket : SocketId) :
    List (SocketId × RoomId) :=
  joined.filter (fun e => decide (e.1 ≠ socket))

/-- The sockets in a socket.io room. -/
def socketsIn (joined : List (SocketId × RoomId)) (room : RoomId) : List SocketId :=
  (joined.filter (fun e => decide (e.2 = room))).map Prod.fst

/-- Call `socket.emit(msg)`: to the socket itself. -/
def emitSocket (socket : SocketId) (msg : Msg) : Emit :=
  { recipients := [socket], msg := msg }

/-- Call `socket.to(room).emit(msg)`: to every socket in the room except `socket`. -/
def emitToRoom (joined : List (SocketId × RoomId)) (socket : SocketId) (room : RoomId)
    (msg : Msg) : Emit :=
  { recipients := (socketsIn joined room).filter (fun t => decide (t ≠ socket)), msg := msg }

/-- Call `io.to(room).emit(msg)`: to every socket in the room. -/
def emitIoRoom (joined : List (SocketId × RoomId)) (room : RoomId) (msg : Msg) : Emit :=
  { recipients := socketsIn joined room, msg := msg }

/-! ## stopRoomRecording and the event handlers -/

/-- Object returned by `stopRoomRecording`: `{ base64, size, filename, filePath }`. -/
structure RoomRecordingData where
  base64 : Option Bytes
  size : Nat
  filename : Option FilePath
  deriving DecidableEq, Repr

/-- Function `stopRoomRecording(roomId)`.  For a recording room it sets `isRecording = false`,
skips the `if (room.recordingStream)` block and then reads
`room.recordingChunks.length`; class `Room` has no `recordingChunks` (nor
`recordingStream`, `recordingFilePath`), so that read is a TypeError. -/
def stopRoomRecording (rooms : List (RoomId × Room)) (roomId : RoomId) :
    Res (List (RoomId × Room)) RoomRecordingData :=
  match JsMap.get rooms roomId with
  | some room =>
    if room.isRecording then
      .threw (JsMap.set rooms roomId { room with isRecording := false }) .typeError
    else .ok rooms { base64 := none, size := 0, filename := none }
  | none => .ok rooms { base64 := none, size := 0, filename := none }

/-- The block `// Clean up empty rooms` of the `leave-room` and `disconnect` handlers,
run on the directory in which `roomId` holds `room`. -/
def cleanUpEmptyRoom (rooms : List (RoomId × Room)) (roomId : RoomId) (room : Room) :
    Res (List (RoomId × Room)) Unit :=
  if room.getUserCount = 0 then
    if room.isRecording then
      match stopRoomRecording rooms roomId with
      | .ok rooms1 _ => .ok (JsMap.delete rooms1 roomId) ()
      | .threw rooms1 e => .threw rooms1 e
    else .ok (JsMap.delete rooms roomId) ()
  else .ok rooms ()

/-- Handler of `join-room`. -/
def onJoinRoom (env : Env) (s : Server) (socket : SocketId) (roomId : Option RoomId)
    (userId : Option UserId) : Outcome :=
  match roomId, userId with
  | some roomId, some userId =>
    -- leave the room the connection is bound to
    let left : Server :=
      match JsMap.get s.userSockets socket with
      | some existingUserInfo =>
        let joined1 := socketLeave s.joined socket existingUserInfo.roomId
        match JsMap.get s.rooms existingUserInfo.roomId with
        | some old =>
          { s with joined := joined1,
                   rooms := JsMap.set s.rooms existingUserInfo.roomId
                     (old.removeUser env existingUserInfo.userId).1 }
        | none => { s with joined := joined1 }
      | none => s
    -- create the room if it does not exist
    let room : Room :=
      match JsMap.get left.rooms roomId with
      | some existing => existing
      | none => Room.new roomId
    let room1 := room.addUser userId socket
    let joined2 := socketJoin left.joined socket roomId
    let otherUsers := room1.getUsers.filter (fun user => decide (user.userId ≠ userId))
    .done { rooms := JsMap.set left.rooms roomId room1,
            userSockets := JsMap.set left.userSockets socket
              { userId := userId, roomId := roomId },
            joined := joined2 }
      [ emitToRoom joined2 socket roomId (.userJoined userId socket),
        emitSocket socket
          (.roomJoined roomId userId otherUsers room1.isRecording room1.getUserCount),
        emitIoRoom joined2 roomId (.roomUpdated roomId room1.getUserCount room1.getUsers) ]
  | _, _ => .done s [emitSocket socket (.roomJoinError .missingRoomIdOrUserId)]

/-- Handler of `leave-room`. -/
def onLeaveRoom (env : Env) (s : Server) (socket : SocketId) (roomId : RoomId)
    (userId : UserId) : Outcome :=
  match JsMap.get s.rooms roomId with
  | some room =>
    let (room1, removed) := room.removeUser env userId
    let rooms1 := JsMap.set s.rooms roomId room1
    let out :=
      if removed then
        [ emitToRoom s.joined socket roomId (.userLeft userId (some room1.getUserCount)),
          emitIoRoom s.joined roomId (.roomUpdated roomId room1.getUserCount room1.getUsers) ]
      else []
    match cleanUpEmptyRoom rooms1 roomId room1 with
    | .ok rooms2 _ =>
      .done { rooms := rooms2, userSockets := JsMap.delete s.userSockets socket,
              joined := socketLeave s.joined socket roomId } out
    | .threw rooms2 e => .crashed { s with rooms := rooms2 } out e
  | none =>
    .done { s with userSockets := JsMap.delete s.userSockets socket,
                   joined := socketLeave s.joined socket roomId } []

/-- Handler of `start-recording`. -/
def onStartRecording (env : Env) (s : Server) (socket : SocketId) (roomId : RoomId) :
    Outcome :=
  match JsMap.get s.rooms roomId with
  | some room =>
    if !room.isRecording then
      match room.startRecordingSession env with
      | .ok room1 session =>
        .done { s with rooms := JsMap.set s.rooms roomId room1 }
          [ emitIoRoom s.joined roomId (.recordingStarted roomId session.id),
            emitSocket socket (.recordingStartResponse true (some session.id) none) ]
      | .threw room1 e => .crashed { s with rooms := JsMap.set s.rooms roomId room1 } [] e
    else
      .done s [emitSocket socket
        (.recordingStartResponse false none (some .recordingAlreadyInProgress))]
  | none =>
    .done s [emitSocket socket (.recordingStartResponse false none (some .roomNotFound))]

/-- The projection `{ userId, filename, size, chunks }` sent in `recording-stopped`. -/
def RecordingResult.info (r : RecordingResult) : RecordingInfo :=
  { userId := r.userId, filename := r.filePath, size := r.size, chunks := r.chunks }

/-- Handler of `stop-recording`. -/
def onStopRecording (env : Env) (s : Server) (socket : SocketId) (roomId : RoomId) :
    Outcome :=
  match JsMap.get s.rooms roomId with
  | some room =>
    if room.isRecording then
      match room.stopRecordingSession env with
      | .ok room1 (some (session, userRecordings)) =>
        .done { s with rooms := JsMap.set s.rooms roomId room1 }
          [ emitIoRoom s.joined roomId
              (.recordingStopped roomId session.sessionId
                (userRecordings.map RecordingResult.info) session.totalFiles session.totalSize),
            emitSocket socket
              (.recordingStopResponse true (some (session, userRecordings)) none) ]
      | .ok room1 none =>
        .done { s with rooms := JsMap.set s.rooms roomId room1 }
          [emitSocket socket (.recordingStopResponse false none (some .noRecordingInProgress))]
      | .threw room1 e => .crashed { s with rooms := JsMap.set s.rooms roomId room1 } [] e
    else
      .done s [emitSocket socket
        (.recordingStopResponse false none (some .noRecordingInProgress))]
  | none =>
    .done s [emitSocket socket (.recordingStopResponse false none (some .roomNotFound))]

/-- The field `chunkIndex || (userRecording ? userRecording.chunks.length - 1 : 0)` of
`audio-chunk-received`. -/
def ackIndex (chunkIndex : Option Int) (userRecording : Option UserRecording) : Int :=
  let fallback : Int :=
    match userRecording with
    | some r => (r.chunks.length : Int) - 1
    | none => 0
  match chunkIndex with
  | none => fallback
  | some i => jsOr i fallback

/-- Handler of `audio-chunk`. -/
def onAudioChunk (env : Env) (s : Server) (socket : SocketId) (roomId : RoomId)
    (audioData : AudioData) (chunkIndex : Option Int) : Outcome :=
  match JsMap.get s.userSockets socket with
  | none =>
    .done s [emitSocket socket
      (.audioChunkReceived false none none none (some .userNotFoundInRoom))]
  | some userInfo =>
    match JsMap.get s.rooms roomId with
    | some room =>
      if room.isRecording && audioData.truthy then
        match room.addUserAudioChunk env env.stackDepth userInfo.userId audioData.decoded
            chunkIndex with
        | .ok room1 true =>
          let userRecording := JsMap.get room1.userRecordings userInfo.userId
          .done { s with rooms := JsMap.set s.rooms roomId room1 }
            [ emitSocket socket
                (.audioChunkReceived true (some (ackIndex chunkIndex userRecording))
                  (some (match userRecording with
                         | some r => r.chunks.length
                         | none => 0))
                  (some userInfo.userId) none),
              emitToRoom s.joined socket roomId (.audioData userInfo.userId audioData) ]
        | .ok room1 false =>
          .done { s with rooms := JsMap.set s.rooms roomId room1 }
            [emitSocket socket
              (.audioChunkReceived false none none (some userInfo.userId)
                (some .failedToAddAudioChunk))]
        | .threw room1 e => .crashed { s with rooms := JsMap.set s.rooms roomId room1 } [] e
      else if !room.isRecording then
        .done s [emitSocket socket
          (.audioChunkReceived false none none none (some .recordingNotActive))]
      else .done s []
    | none => .done s []

/-- Handler of `get-recording`. -/
def onGetRecording (s : Server) (socket : SocketId) (roomId : RoomId)
    (requestedUserId : Option UserId) : Outcome :=
  match JsMap.get s.userSockets socket with
  | none => .done s [emitSocket socket (.getRecordingResponse false none none (some .userNotFound))]
  | some userInfo =>
    let targetUserId :=
      match requestedUserId with
      | some u => u
      | none => userInfo.userId
    match JsMap.get s.rooms roomId with
    | some room =>
      let (room1, recordingData) := room.getUserRecordingData targetUserId
      .done { s with rooms := JsMap.set s.rooms roomId room1 }
        [emitSocket socket (.getRecordingResponse true (some targetUserId) recordingData none)]
    | none =>
      .done s [emitSocket socket (.getRecordingResponse false none none (some .roomNotFound))]

/-- Handler of `get-recording-status`. -/
def onGetRecordingStatus (s : Server) (socket : SocketId) (roomId : RoomId) : Outcome :=
  match JsMap.get s.rooms roomId with
  | some room =>
    .done s [emitSocket socket
      (.recordingStatusResponse true (some roomId) (some room.getRecordingStatus) none)]
  | none =>
    .done s [emitSocket socket (.recordingStatusResponse false none none (some .roomNotFound))]

/-- The `fromUserId` of the relay handlers: `userSockets.get(socket.id)?.userId`. -/
def fromUserId (s : Server) (socket : SocketId) : Option UserId :=
  (JsMap.get s.userSockets socket).map UserInfo.userId

/-- Handler of `webrtc-offer`. -/
def onWebrtcOffer (s : Server) (socket : SocketId) (roomId : RoomId) (targetUserId : UserId)
    (offer : Nat) : Outcome :=
  .done s [emitToRoom s.joined socket roomId
    (.webrtcOffer (fromUserId s socket) targetUserId offer)]

/-- Handler of `webrtc-answer`. -/
def onWebrtcAnswer (s : Server) (socket : SocketId) (roomId : RoomId) (targetUserId : UserId)
    (answer : Nat) : Outcome :=
  .done s [emitToRoom s.joined socket roomId
    (.webrtcAnswer (fromUserId s socket) targetUserId answer)]

/-- Handler of `webrtc-ice-candidate`. -/
def onWebrtcIceCandidate (s : Server) (socket : SocketId) (roomId : RoomId)
    (targetUserId : UserId) (candidate : Nat) : Outcome :=
  .done s [emitToRoom s.joined socket roomId
    (.webrtcIceCandidate (fromUserId s socket) targetUserId candidate)]

/-- Handler of `disconnect`; socket.io has taken the socket out of its rooms before. -/
def onDisconnect (env : Env) (s : Server) (socket : SocketId) : Outcome :=
  let joined1 := socketLeaveAll s.joined socket
  match JsMap.get s.userSockets socket with
  | some userInfo =>
    match JsMap.get s.rooms userInfo.roomId with
    | some room =>
      let (room1, removed) := room.removeUser env userInfo.userId
      let rooms1 := JsMap.set s.rooms userInfo.roomId room1
      let out :=
        if removed then
          [ emitToRoom joined1 socket userInfo.roomId (.userLeft userInfo.userId none),
            emitIoRoom joined1 userInfo.roomId
              (.roomUpdated userInfo.roomId room1.getUserCount room1.getUsers) ]
        else []
      match cleanUpEmptyRoom rooms1 userInfo.roomId room1 with
      | .ok rooms2 _ =>
        .done { rooms := rooms2, userSockets := JsMap.delete s.userSockets socket,
                joined := joined1 } out
      | .threw rooms2 e => .crashed { s with rooms := rooms2, joined := joined1 } out e
    | none =>
      .done { s with userSockets := JsMap.delete s.userSockets socket, joined := joined1 } []
  | none => .done { s with joined := joined1 } []

/-- Handler of `get-room-info`. -/
def onGetRoomInfo (s : Server) (socket : SocketId) (roomId : RoomId) : Outcome :=
  match JsMap.get s.rooms roomId with
  | some room =>
    .done s [emitSocket socket
      (.roomInfoResponse roomId room.getUsers room.getUserCount room.isRecording)]
  | none => .done s [emitSocket socket (.roomInfoError .roomNotFound)]

/-- One event arriving on connection `socket`. -/
def handle (env : Env) (s : Server) (socket : SocketId) : Event → Outcome
  | .connection => .done { s with joined := socketJoin s.joined socket socket } []
  | .joinRoom roomId userId => onJoinRoom env s socket roomId userId
  | .leaveRoom roomId userId => onLeaveRoom env s socket roomId userId
  | .startRecording roomId => onStartRecording env s socket roomId
  | .stopRecording roomId => onStopRecording env s socket roomId
  | .audioChunk roomId audioData chunkIndex =>
    onAudioChunk env s socket roomId audioData chunkIndex
  | .getRecording roomId userId => onGetRecording s socket roomId userId
  | .getRecordingStatus roomId => onGetRecordingStatus s socket roomId
  | .webrtcOffer roomId targetUserId offer => onWebrtcOffer s socket roomId targetUserId offer
  | .webrtcAnswer roomId targetUserId answer =>
    onWebrtcAnswer s socket roomId targetUserId answer
  | .webrtcIceCandidate roomId targetUserId candidate =>
    onWebrtcIceCandidate s socket roomId targetUserId candidate
  | .disconnect => onDisconnect env s socket
  | .getRoomInfo roomId => onGetRoomInfo s socket roomId

/-- States the server can be in after a run of events, each handled to its end.  A
handler that crashes ends the process, so no state follows it. -/
inductive Reachable (env : Env) : Server → Prop where
  | empty : Reachable env Server.empty
  | step {s s1 : Server} {out : List Emit} (socket : SocketId) (ev : Event) :
      Reachable env s → handle env s socket ev = .done s1 out → Reachable env s1

/-! ## Well-formed states -/

/-- The session invariant of a room: `isRecording` is true exactly when
`recordingSession` is not `null`. -/
def Room.SessionInv (room : Room) : Prop :=
  room.isRecording = true ↔ room.recordingSession.isSome = true

/-- A room whose two maps have each key once and which meets the session invariant. -/
def Room.WF (room : Room) : Prop :=
  room.SessionInv ∧ (JsMap.keys room.users).Nodup ∧ (JsMap.keys room.userRecordings).Nodup

/-- A directory in which each key occurs once and every room is well formed. -/
def RoomsWF (rooms : List (RoomId × Room)) : Prop :=
  (JsMap.keys rooms).Nodup ∧ ∀ e ∈ rooms, e.2.WF

/-- A server whose maps have each key once and whose rooms are well formed. -/
def Server.WF (s : Server) : Prop :=
  RoomsWF s.rooms ∧ (JsMap.keys s.userSockets).Nodup

/-! ## Runs and scenarios -/

/-- Events handled one after the other on their connections, up to the first crash;
the emits are those of the last event handled. -/
def run (env : Env) : Server → List (SocketId × Event) → Outcome
  | s, [] => .done s []
  | s, [(socket, ev)] => handle env s socket ev
  | s, (socket, ev) :: rest =>
    match handle env s socket ev with
    | .done s1 _ => run env s1 rest
    | .crashed s1 out e => .crashed s1 out e

/-- Successive calls `addUserAudioChunk(userId, data, index)`, one per arrival. -/
def Room.addEach (env : Env) (stack : Nat) (userId : UserId) :
    List (Bytes × Option Int) → Room → Res Room Unit
  | [], room => .ok room ()
  | (data, index) :: rest, room =>
    match room.addUserAudioChunk env stack userId (some data) index with
    | .ok room1 _ => Room.addEach env stack userId rest room1
    | .threw room1 e => .threw room1 e

/-- What `stopUserRecording(userId)` returns once the arrivals have been added. -/
def Room.finalizeAfter (env : Env) (stack : Nat) (room : Room) (userId : UserId)
    (arrivals : List (Bytes × Option Int)) : Option RecordingResult :=
  match Room.addEach env stack userId arrivals room with
  | .ok room1 _ => (room1.stopUserRecording env userId).2
  | .threw _ _ => none

/-- A call of `addUser` or of `removeUser`. -/
inductive MemberCall where
  | addUser (userId : UserId) (socketId : SocketId)
  | removeUser (userId : UserId)
  deriving DecidableEq, Repr

/-- The room after one membership call. -/
def Room.call (env : Env) (room : Room) : MemberCall → Room
  | .addUser userId socketId => room.addUser userId socketId
  | .removeUser userId => (room.removeUser env userId).1

/-- The room after a sequence of membership calls. -/
def Room.calls (env : Env) : Room → List MemberCall → Room
  | room, [] => room
  | room, c :: rest => Room.calls env (room.call env c) rest

/-- Number of `addUser` calls in a sequence. -/
def countAdds : List MemberCall → Nat
  | [] => 0
  | .addUser _ _ :: rest => countAdds rest + 1
  | .removeUser _ :: rest => countAdds rest

/-- Number of `addUser` calls, in a sequence run from `room`, whose user was not a
member when the call was made. -/
def countInserted (env : Env) : Room → List MemberCall → Nat
  | _, [] => 0
  | room, .addUser userId socketId :: rest =>
    countInserted env (room.addUser userId socketId) rest
      + (if room.hasUser userId then 0 else 1)
  | room, .removeUser userId :: rest =>
    countInserted env (room.removeUser env userId).1 rest

/-- Number of `removeUser` calls, in a sequence run from `room`, that returned `true`. -/
def countRemoved (env : Env) : Room → List MemberCall → Nat
  | _, [] => 0
  | room, .addUser userId socketId :: rest =>
    countRemoved env (room.addUser userId socketId) rest
  | room, .removeUser userId :: rest =>
    countRemoved env (room.removeUser env userId).1 rest
      + (if (room.removeUser env userId).2 then 1 else 0)

/-- The object `stopUserRecording` builds for a recorder whose final write succeeds. -/
def UserRecording.result (userId : UserId) (userRecording : UserRecording) : RecordingResult :=
  { userId := userId, filePath := userRecording.filePath,
    size := (combine (sortChunks userRecording.chunks)).length,
    chunks := userRecording.chunks.length,
    base64 := combine (sortChunks userRecording.chunks) }

/-- The recorders that hold at least one chunk and whose final write does not throw. -/
def savedRecorders (env : Env) (m : List (UserId × UserRecording)) :
    List (UserId × UserRecording) :=
  m.filter (fun e => decide (0 < e.2.chunks.length) && env.writeFinal e.2.filePath)

/-- One descriptor per saved recorder, in recorder order. -/
def savedResults (env : Env) (m : List (UserId × UserRecording)) : List RecordingResult :=
  (savedRecorders env m).map (fun e => UserRecording.result e.1 e.2)

/-- An environment in which no file-system call throws. -/
def Env.allOk (stackDepth : Nat) : Env :=
  { createWriteStream := fun _ => true, writeFinal := fun _ => true,
    stackDepth := stackDepth }

/-- An environment in which every file-system call throws. -/
def Env.allFail (stackDepth : Nat) : Env :=
  { createWriteStream := fun _ => false, writeFinal := fun _ => false,
    stackDepth := stackDepth }

/-- Room 1 while recording, with member 10 on connection 100 and the given recorders. -/
def recordingRoom (userRecordings : List (UserId × UserRecording)) : Room :=
  { id := 1, users := [(10, { userId := 10, socketId := 100 })], isRecording := true,
    recordingSession := some { id := 1, users := [10] },
    userRecordings := userRecordings }

/-- A recorder of room 1 for `userId` holding `chunks`. -/
def recorderOf (userId : UserId) (chunks : List Chunk) : UserRecording :=
  { userId := userId, chunks := chunks, filePath := { session := 1, user := userId } }

/-- Connection 100 has connected, joined room 1 as user 10, started a recording and
sent one chunk. -/
def soloRecording : List (SocketId × Event) :=
  [ (100, .connection), (100, .joinRoom (some 1) (some 10)), (100, .startRecording 1),
    (100, .audioChunk 1 (.base64 [1, 2, 3]) (some 0)) ]

/-- The state of an outcome. -/
def Outcome.state : Outcome → Server
  | .done s _ => s
  | .crashed s _ _ => s

/-- The exception that ended a handler, `none` when it ran to its end. -/
def Outcome.error : Outcome → Option JsError
  | .done _ _ => none
  | .crashed _ _ e => some e

/-- The emits of an outcome. -/
def Outcome.emits : Outcome → List Emit
  | .done _ out => out
  | .crashed _ out _ => out

/-- The recorder invariant of a room: every user with a recorder is a member, and a
room that is not recording has no recorders. -/
def Room.RecInv (room : Room) : Prop :=
  (∀ userId, JsMap.has room.userRecordings userId = true →
    JsMap.has room.users userId = true) ∧
  (room.isRecording = false → room.userRecordings = [])

/-- A property of rooms that holds for a new room and that every method a handler
calls keeps, whenever the method returns. -/
structure Room.Keeps (env : Env) (P : Room → Prop) : Prop where
  new : ∀ id, P (Room.new id)
  addUser : ∀ (room : Room) userId socketId, P room → P (room.addUser userId socketId)
  removeUser : ∀ (room : Room) userId, P room → P (room.removeUser env userId).1
  startRecordingSession : ∀ (room room1 : Room) session, P room →
    room.startRecordingSession env = .ok room1 session → P room1
  stopRecordingSession : ∀ (room room1 : Room) result, P room →
    room.stopRecordingSession env = .ok room1 result → P room1
  addUserAudioChunk : ∀ stack (room room1 : Room) userId audioData chunkIndex b, P room →
    room.addUserAudioChunk env stack userId audioData chunkIndex = .ok room1 b → P room1
  getUserRecordingData : ∀ (room : Room) userId, P room →
    P (room.getUserRecordingData userId).1

/-- The arrivals `{ index: start, data: d_0 }, { index: start + 1, data: d_1 }, ...` -/
def indexedFrom (start : Nat) : List Bytes → List (Bytes × Option Int)
  | [] => []
  | d :: ds => (d, some (start : Int)) :: indexedFrom (start + 1) ds

/-- The chunk `addUserAudioChunk` stores for an arrival whose explicit index is not 0. -/
def arrivalChunk (arrival : Bytes × Option Int) : Chunk :=
  { data := arrival.1,
    index := match arrival.2 with
      | some i => i
      | none => 0 }

/-- A call on the recorders of a room: `addUserAudioChunk` for the user under study, or
`getUserRecordingData` for any user. -/
inductive RecorderCall where
  | addChunk (audioData : Option Bytes) (chunkIndex : Option Int)
  | getData (userId : UserId)
  deriving DecidableEq, Repr

/-- The room after a sequence of recorder calls, the chunks being added for `userId`. -/
def Room.recorderCalls (env : Env) (stack : Nat) (userId : UserId) :
    List RecorderCall → Room → Res Room Unit
  | [], room => .ok room ()
  | .addChunk audioData chunkIndex :: rest, room =>
    match room.addUserAudioChunk env stack userId audioData chunkIndex with
    | .ok room1 _ => Room.recorderCalls env stack userId rest room1
    | .threw room1 e => .threw room1 e
  | .getData target :: rest, room =>
    Room.recorderCalls env stack userId rest (room.getUserRecordingData target).1

/-- A sequence of recorder calls with its `getUserRecordingData` calls left out. -/
def withoutGetData : List RecorderCall → List RecorderCall
  | [] => []
  | .addChunk audioData chunkIndex :: rest => .addChunk audioData chunkIndex :: withoutGetData rest
  | .getData _ :: rest => withoutGetData rest

/-- What `stopUserRecording(userId)` returns after a sequence of recorder calls; `none`
when one of the calls throws. -/
def Room.finalizeAfterCalls (env : Env) (stack : Nat) (room : Room) (userId : UserId)
    (calls : List RecorderCall) : Option (Option RecordingResult) :=
  match Room.recorderCalls env stack userId calls room with
  | .ok room1 _ => some (room1.stopUserRecording env userId).2
  | .threw _ _ => none

end VoiceChat

/-! # Theorems -/

namespace VoiceChat

/-! ## Lemmas on `JsMap` -/

namespace JsMap

variable {β : Type}

theorem has_eq_isSome_get (m : List (Nat × β)) (k : Nat) : has m k = (get m k).isSome := by
  induction m with
  | nil => rfl
  | cons e m ih =>
    obtain ⟨k', v⟩ := e
    by_cases h : k' = k <;> simp [has, get, h, ih]

theorem get_eq_none_of_has_false {m : List (Nat × β)} {k : Nat} (h : has m k = false) :
    get m k = none := by
  rw [has_eq_isSome_get] at h
  cases hg : get m k with
  | none => rfl
  | some v => simp [hg] at h

theorem has_of_get_some {m : List (Nat × β)} {k : Nat} {v : β} (h : get m k = some v) :
    has m k = true := by
  rw [has_eq_isSome_get, h]; rfl

theorem get_mem {m : List (Nat × β)} {k : Nat} {v : β} (h : get m k = some v) :
    (k, v) ∈ m := by
  induction m with
  | nil => simp [get] at h
  | cons e m ih =>
    obtain ⟨k', v'⟩ := e
    by_cases hk : k' = k
    · simp [get, hk] at h
      simp [hk, h]
    · simp [get, hk] at h
      exact List.mem_cons_of_mem _ (ih h)

theorem has_iff_mem_keys (m : List (Nat × β)) (k : Nat) : has m k = true ↔ k ∈ keys m := by
  induction m with
  | nil => simp [has, keys]
  | cons e m ih =>
    obtain ⟨k', v⟩ := e
    by_cases h : k' = k
    · simp [has, keys, h]
    · have ih' : has m k = true ↔ k ∈ List.map Prod.fst m := ih
      simp [has, keys, h, ih', Ne.symm h]

theorem mem_set {m : List (Nat × β)} {k : Nat} {v : β} {e : Nat × β} (h : e ∈ set m k v) :
    e ∈ m ∨ e = (k, v) := by
  induction m with
  | nil => simp [set] at h; exact Or.inr h
  | cons e' m ih =>
    obtain ⟨k', v'⟩ := e'
    by_cases hk : k' = k
    · simp [set, hk] at h
      rcases h with h | h
      · exact Or.inr h
      · exact Or.inl (List.mem_cons_of_mem _ h)
    · simp [set, hk] at h
      rcases h with h | h
      · exact Or.inl (by simp [h])
      · rcases ih h with h' | h'
        · exact Or.inl (List.mem_cons_of_mem _ h')
        · exact Or.inr h'

theorem mem_delete {m : List (Nat × β)} {k : Nat} {e : Nat × β} (h : e ∈ delete m k) :
    e ∈ m := by
  induction m with
  | nil => simp [delete] at h
  | cons e' m ih =>
    obtain ⟨k', v'⟩ := e'
    by_cases hk : k' = k
    · simp only [delete, hk, if_true] at h
      exact List.mem_cons_of_mem _ (ih h)
    · simp only [delete, hk, if_false, List.mem_cons] at h
      rcases h with h | h
      · simp [h]
      · exact List.mem_cons_of_mem _ (ih h)

theorem has_delete_self (m : List (Nat × β)) (k : Nat) : has (delete m k) k = false := by
  induction m with
  | nil => rfl
  | cons e m ih =>
    obtain ⟨k', v⟩ := e
    by_cases hk : k' = k <;> simp [delete, has, hk, ih]

theorem get_delete_self (m : List (Nat × β)) (k : Nat) : get (delete m k) k = none :=
  get_eq_none_of_has_false (has_delete_self m k)

theorem delete_eq_self_of_has_false {m : List (Nat × β)} {k : Nat} (h : has m k = false) :
    delete m k = m := by
  induction m with
  | nil => rfl
  | cons e m ih =>
    obtain ⟨k', v⟩ := e
    by_cases hk : k' = k
    · simp [has, hk] at h
    · simp only [has, hk, if_false] at h
      simp [delete, hk, ih h]

theorem get_set_self (m : List (Nat × β)) (k : Nat) (v : β) : get (set m k v) k = some v := by
  induction m with
  | nil => simp [set, get]
  | cons e m ih =>
    obtain ⟨k', v'⟩ := e
    by_cases hk : k' = k <;> simp [set, get, hk, ih]

theorem get_set_ne (m : List (Nat × β)) {k k' : Nat} (v : β) (h : k' ≠ k) :
    get (set m k v) k' = get m k' := by
  induction m with
  | nil => simp [set, get, Ne.symm h]
  | cons e m ih =>
    obtain ⟨k0, v0⟩ := e
    by_cases hk : k0 = k
    · subst hk
      simp [set, get, Ne.symm h]
    · by_cases hk' : k0 = k'
      · subst hk'
        simp [set, get, hk]
      · simp [set, get, hk, hk', ih]

theorem get_delete_ne (m : List (Nat × β)) {k k' : Nat} (h : k' ≠ k) :
    get (delete m k) k' = get m k' := by
  induction m with
  | nil => rfl
  | cons e m ih =>
    obtain ⟨k0, v0⟩ := e
    by_cases hk : k0 = k
    · subst hk
      simp [delete, get, Ne.symm h, ih]
    · by_cases hk' : k0 = k'
      · subst hk'
        simp [delete, get, hk]
      · simp [delete, get, hk, hk', ih]

theorem keys_set (m : List (Nat × β)) (k : Nat) (v : β) :
    keys (set m k v) = if has m k then keys m else keys m ++ [k] := by
  induction m with
  | nil => simp [set, keys, has]
  | cons e m ih =>
    obtain ⟨k', v'⟩ := e
    by_cases hk : k' = k
    · simp [set, keys, has, hk]
    · have ih' : List.map Prod.fst (set m k v)
          = if has m k then List.map Prod.fst m else List.map Prod.fst m ++ [k] := ih
      by_cases hh : has m k <;> simp [set, keys, has, hk, ih', hh]

theorem nodup_keys_set {m : List (Nat × β)} (k : Nat) (v : β) (h : (keys m).Nodup) :
    (keys (set m k v)).Nodup := by
  rw [keys_set]
  by_cases hh : has m k = true
  · simp [hh, h]
  · have hk : k ∉ keys m := fun hm => hh ((has_iff_mem_keys m k).mpr hm)
    simp only [hh]
    exact List.Nodup.append h (List.nodup_singleton k) (by simpa using hk)

theorem keys_delete_sublist (m : List (Nat × β)) (k : Nat) :
    (keys (delete m k)).Sublist (keys m) := by
  induction m with
  | nil => exact List.Sublist.slnil
  | cons e m ih =>
    obtain ⟨k', v⟩ := e
    by_cases hk : k' = k
    · simp only [delete, hk, if_true, keys, List.map_cons]
      exact List.Sublist.cons _ ih
    · simp only [delete, hk, if_false, keys, List.map_cons]
      exact List.Sublist.cons₂ _ ih

theorem nodup_keys_delete {m : List (Nat × β)} (k : Nat) (h : (keys m).Nodup) :
    (keys (delete m k)).Nodup :=
  List.Nodup.sublist (keys_delete_sublist m k) h

theorem size_set (m : List (Nat × β)) (k : Nat) (v : β) :
    size (set m k v) = if has m k then size m else size m + 1 := by
  have := congrArg List.length (keys_set m k v)
  simp only [keys, List.length_map] at this
  by_cases hh : has m k = true <;> simp_all [size]

theorem size_delete (m : List (Nat × β)) (k : Nat) (h : (keys m).Nodup) :
    size (delete m k) + (if has m k then 1 else 0) = size m := by
  induction m with
  | nil => rfl
  | cons e m ih =>
    obtain ⟨k', v⟩ := e
    have hnd : (keys m).Nodup := by
      simp only [keys, List.map_cons, List.nodup_cons] at h; exact h.2
    have hk' : k' ∉ keys m := by
      simp only [keys, List.map_cons, List.nodup_cons] at h; exact h.1
    by_cases hk : k' = k
    · subst hk
      have hh : has m k' = false := by
        cases hx : has m k' with
        | false => rfl
        | true => exact absurd ((has_iff_mem_keys m k').mp hx) hk'
      simp [delete, has, size, delete_eq_self_of_has_false hh]
    · have ih' := ih hnd
      simp only [size] at ih'
      simp only [delete, has, size, hk, if_false, List.length_cons]
      omega

end JsMap


/-! ## Lemmas on the methods of `Room` -/

theorem stopUserRecording_room (env : Env) (room : Room) (userId : UserId) :
    (room.stopUserRecording env userId).1
      = { room with userRecordings := JsMap.delete room.userRecordings userId } := by
  unfold Room.stopUserRecording
  cases hg : JsMap.get room.userRecordings userId with
  | none =>
    have hh : JsMap.has room.userRecordings userId = false := by
      rw [JsMap.has_eq_isSome_get, hg]; rfl
    simp [JsMap.delete_eq_self_of_has_false hh]
  | some userRecording =>
    simp only
    split <;> [split; skip] <;> rfl

theorem stopUserRecording_of_get_none {env : Env} {room : Room} {userId : UserId}
    (h : JsMap.get room.userRecordings userId = none) :
    room.stopUserRecording env userId = (room, none) := by
  simp [Room.stopUserRecording, h]

theorem removeUser_users (env : Env) (room : Room) (userId : UserId) :
    (room.removeUser env userId).1.users = JsMap.delete room.users userId := by
  unfold Room.removeUser
  simp only
  split
  · split
    · rw [stopUserRecording_room]
    · rfl
  · rfl

theorem removeUser_snd (env : Env) (room : Room) (userId : UserId) :
    (room.removeUser env userId).2 = JsMap.has room.users userId := by
  unfold Room.removeUser
  cases h : JsMap.has room.users userId
  · simp
  · simp only [if_true]
    split <;> rfl

/-! ## C1 -/

/-- C1 (code defect): on a fresh recorder the chunk with index 1 carrying `[4,5]`
followed by the chunk with index 0 carrying `[1,2,3]` is finalized as
`[4,5,1,2,3]`, not `[1,2,3,4,5]`: `chunkIndex || chunks.length` stores the late
index 0 as 1, and the stable sort keeps arrival order among equal indices. -/
theorem C1_late_index_zero_is_misplaced :
    ((recordingRoom [(10, recorderOf 10 [])]).finalizeAfter (Env.allOk 2) 2 10
        [([4, 5], some 1), ([1, 2, 3], some 0)]).map RecordingResult.base64
      = some [4, 5, 1, 2, 3] := by
  decide

/-! ## C2 -/

/-- C2 (code defect): when the only member of a recording room leaves, by `leave-room`
or by `disconnect`, the handler crashes with a TypeError inside
`stopRoomRecording`: no session summary is produced or emitted, the room stays
in the directory (with `isRecording` false and its session still set) and the
connection stays in `userSockets`. -/
theorem C2_last_member_leaving_crashes :
    run (Env.allOk 2) Server.empty (soloRecording ++ [(100, .leaveRoom 1 10)])
      = .crashed
          { rooms := [(1, { id := 1, users := [], isRecording := false,
                            recordingSession := some { id := 1, users := [10] },
                            userRecordings := [] })],
            userSockets := [(100, { userId := 10, roomId := 1 })],
            joined := [(100, 100), (100, 1)] }
          [ { recipients := [], msg := .userLeft 10 (some 0) },
            { recipients := [100], msg := .roomUpdated 1 0 [] } ]
          .typeError ∧
    run (Env.allOk 2) Server.empty (soloRecording ++ [(100, .disconnect)])
      = .crashed
          { rooms := [(1, { id := 1, users := [], isRecording := false,
                            recordingSession := some { id := 1, users := [10] },
                            userRecordings := [] })],
            userSockets := [(100, { userId := 10, roomId := 1 })],
            joined := [] }
          [ { recipients := [], msg := .userLeft 10 none },
            { recipients := [], msg := .roomUpdated 1 0 [] } ]
          .typeError := by
  constructor <;> decide

/-! ## C4 -/

/-- C4: `start-recording` on a room that is recording and `stop-recording` on a room
that is not are answered to the sender with `success: false`, and the server
state (hence the room with its members, flags, session and recorders) stays as
it was; `stopRecordingSession` itself returns `success: false` on an unchanged
room. -/
theorem C4_conflicting_request_rejected (env : Env) (s : Server) (socket : SocketId)
    (roomId : RoomId) (room : Room) (hroom : JsMap.get s.rooms roomId = some room) :
    (room.isRecording = true →
      handle env s socket (.startRecording roomId)
        = .done s [emitSocket socket
            (.recordingStartResponse false none (some .recordingAlreadyInProgress))]) ∧
    (room.isRecording = false →
      handle env s socket (.stopRecording roomId)
        = .done s [emitSocket socket
            (.recordingStopResponse false none (some .noRecordingInProgress))] ∧
      room.stopRecordingSession env = .ok room none) := by
  constructor
  · intro h
    simp [handle, onStartRecording, hroom, h]
  · intro h
    simp [handle, onStopRecording, Room.stopRecordingSession, hroom, h]

/-- Witness for C4: room 1 while recording, and room 1 before any recording. -/
theorem C4_conflicting_request_rejected_witness :
    handle (Env.allOk 2) ⟨[(1, recordingRoom [])], [], []⟩ 100 (.startRecording 1)
      = .done ⟨[(1, recordingRoom [])], [], []⟩
          [emitSocket 100
            (.recordingStartResponse false none (some .recordingAlreadyInProgress))] ∧
    handle (Env.allOk 2) ⟨[(1, Room.new 1)], [], []⟩ 100 (.stopRecording 1)
      = .done ⟨[(1, Room.new 1)], [], []⟩
          [emitSocket 100 (.recordingStopResponse false none (some .noRecordingInProgress))] :=
  ⟨(C4_conflicting_request_rejected (Env.allOk 2) ⟨[(1, recordingRoom [])], [], []⟩ 100 1
      (recordingRoom []) rfl).1 rfl,
   ((C4_conflicting_request_rejected (Env.allOk 2) ⟨[(1, Room.new 1)], [], []⟩ 100 1
      (Room.new 1) rfl).2 rfl).1⟩

/-! ## C6 -/

/-- C6: `stopUserRecording` on a recorder with no chunks returns `null` and removes the
recorder; whatever the room, after `stopUserRecording(u)` user `u` has no
recorder, and a second call returns `null` and leaves the room as it is. -/
theorem C6_stopUserRecording_twice (env : Env) (room : Room) (userId : UserId) :
    (∀ userRecording, JsMap.get room.userRecordings userId = some userRecording →
      userRecording.chunks = [] →
      room.stopUserRecording env userId
        = ({ room with userRecordings := JsMap.delete room.userRecordings userId }, none)) ∧
    JsMap.has (room.stopUserRecording env userId).1.userRecordings userId = false ∧
    JsMap.get (room.stopUserRecording env userId).1.userRecordings userId = none ∧
    (room.stopUserRecording env userId).1.stopUserRecording env userId
      = ((room.stopUserRecording env userId).1, none) := by
  have hget : JsMap.get (room.stopUserRecording env userId).1.userRecordings userId = none := by
    rw [stopUserRecording_room]; exact JsMap.get_delete_self _ _
  refine ⟨?_, ?_, hget, stopUserRecording_of_get_none hget⟩
  · intro userRecording hg hc
    simp [Room.stopUserRecording, hg, hc]
  · rw [stopUserRecording_room]; exact JsMap.has_delete_self _ _

/-- Witness for C6: a recorder of user 10 that holds no chunk. -/
theorem C6_stopUserRecording_twice_witness :
    (recordingRoom [(10, recorderOf 10 [])]).stopUserRecording (Env.allOk 2) 10
      = (recordingRoom [], none) :=
  (C6_stopUserRecording_twice (Env.allOk 2) (recordingRoom [(10, recorderOf 10 [])]) 10).1
    (recorderOf 10 []) rfl rfl

/-! ## C9 -/

theorem not_mem_emitToRoom (joined : List (SocketId × RoomId)) (socket : SocketId)
    (room : RoomId) (msg : Msg) : socket ∉ (emitToRoom joined socket room msg).recipients := by
  simp [emitToRoom]

/-- C9: in every state, the one emit made for a `webrtc-offer`, `webrtc-answer` or
`webrtc-ice-candidate` message is not delivered to the connection that sent it. -/
theorem C9_relay_excludes_sender (env : Env) (s : Server) (socket : SocketId)
    (roomId : RoomId) (targetUserId : UserId) (payload : Nat) :
    (∃ e, handle env s socket (.webrtcOffer roomId targetUserId payload) = .done s [e] ∧
      socket ∉ e.recipients) ∧
    (∃ e, handle env s socket (.webrtcAnswer roomId targetUserId payload) = .done s [e] ∧
      socket ∉ e.recipients) ∧
    (∃ e, handle env s socket (.webrtcIceCandidate roomId targetUserId payload) = .done s [e] ∧
      socket ∉ e.recipients) :=
  ⟨⟨_, rfl, not_mem_emitToRoom _ _ _ _⟩, ⟨_, rfl, not_mem_emitToRoom _ _ _ _⟩,
   ⟨_, rfl, not_mem_emitToRoom _ _ _ _⟩⟩

/-! ## C10 -/

/-- C10 (code defect): when the sink of a member without recorder cannot be created in
a recording room, `startUserRecording` returns `false` and leaves the room as it
is, and `addUserAudioChunk` retries itself without end: whatever the stack
depth it ends in a RangeError and never returns `false`.  The room, and so every
other user's recorder, is unchanged when the error is raised. -/
theorem C10_failed_sink_never_returns (env : Env) (room : Room) (userId : UserId)
    (session : RecordingSession) (audioData : Option Bytes) (chunkIndex : Option Int)
    (hrec : room.isRecording = true) (hmem : JsMap.has room.users userId = true)
    (hnone : JsMap.get room.userRecordings userId = none)
    (hsess : room.recordingSession = some session)
    (hfail : env.createWriteStream { session := session.id, user := userId } = false) :
    room.startUserRecording env userId = .ok room false ∧
    ∀ stack, room.addUserAudioChunk env stack userId audioData chunkIndex
      = .threw room .rangeError := by
  have hhas : JsMap.has room.userRecordings userId = false := by
    rw [JsMap.has_eq_isSome_get, hnone]; rfl
  have hstart : room.startUserRecording env userId = .ok room false := by
    simp [Room.startUserRecording, hrec, hhas, hsess, hfail]
  refine ⟨hstart, ?_⟩
  intro stack
  induction stack with
  | zero => rfl
  | succ n ih => simp [Room.addUserAudioChunk, hnone, hrec, hmem, hstart, ih]

/-- Witness for C10: member 10 of a recording room has no recorder and no sink can be
opened. -/
theorem C10_failed_sink_never_returns_witness :
    (recordingRoom []).addUserAudioChunk (Env.allFail 1000) 1000 10 (some [1, 2, 3]) (some 0)
      = .threw (recordingRoom []) .rangeError :=
  (C10_failed_sink_never_returns (Env.allFail 1000) (recordingRoom []) 10
    { id := 1, users := [10] } (some [1, 2, 3]) (some 0) rfl rfl rfl rfl rfl).2 1000


/-! ## C7 -/

theorem nodup_users_call (env : Env) (room : Room) (c : MemberCall)
    (h : (JsMap.keys room.users).Nodup) : (JsMap.keys (room.call env c).users).Nodup := by
  cases c with
  | addUser userId socketId => exact JsMap.nodup_keys_set _ _ h
  | removeUser userId =>
    simp only [Room.call, removeUser_users]
    exact JsMap.nodup_keys_delete _ h

theorem count_calls (env : Env) (calls : List MemberCall) :
    ∀ room : Room, (JsMap.keys room.users).Nodup →
      (room.calls env calls).getUserCount + countRemoved env room calls
        = room.getUserCount + countInserted env room calls := by
  induction calls with
  | nil => intro room _; rfl
  | cons c rest ih =>
    intro room hnd
    have hstep := ih (room.call env c) (nodup_users_call env room c hnd)
    cases c with
    | addUser userId socketId =>
      simp only [Room.calls, countRemoved, countInserted, Room.call] at hstep ⊢
      have hsize := JsMap.size_set room.users userId
        ({ userId := userId, socketId := socketId } : User)
      simp only [Room.getUserCount, Room.addUser, Room.hasUser] at hstep hsize ⊢
      by_cases hh : JsMap.has room.users userId = true
      · rw [if_pos hh] at hsize ⊢; omega
      · rw [if_neg hh] at hsize ⊢; omega
    | removeUser userId =>
      simp only [Room.calls, countRemoved, countInserted, Room.call] at hstep ⊢
      have hsize := JsMap.size_delete room.users userId hnd
      simp only [Room.getUserCount, removeUser_users, removeUser_snd] at hstep hsize ⊢
      omega

/-- C7 as stated fails: `addUser` overwrites an existing entry, so two adds of user 10
and no remove leave a count of 1, not 2 - 0. -/
theorem C7_counterexample :
    ((Room.new 1).calls (Env.allOk 2) [.addUser 10 100, .addUser 10 100]).getUserCount = 1 ∧
    countAdds [.addUser 10 100, .addUser 10 100] = 2 ∧
    countRemoved (Env.allOk 2) (Room.new 1) [.addUser 10 100, .addUser 10 100] = 0 ∧
    (((Room.new 1).calls (Env.allOk 2) [.addUser 10 100, .addUser 10 100]).getUserCount : Int)
      ≠ (countAdds [.addUser 10 100, .addUser 10 100] : Int)
        - (countRemoved (Env.allOk 2) (Room.new 1) [.addUser 10 100, .addUser 10 100] : Int) := by
  decide

/-- C7, amended: after any sequence of `addUser` and `removeUser` calls on a fresh room,
`getUserCount` is the number of `addUser` calls whose user was not yet a member
minus the number of `removeUser` calls that returned `true`, and that difference
is never negative. -/
theorem C7_count_is_inserted_minus_removed (env : Env) (id : RoomId)
    (calls : List MemberCall) :
    (((Room.new id).calls env calls).getUserCount : Int)
      = (countInserted env (Room.new id) calls : Int) - (countRemoved env (Room.new id) calls : Int) ∧
    countRemoved env (Room.new id) calls ≤ countInserted env (Room.new id) calls := by
  have h := count_calls env calls (Room.new id) (by simp [Room.new, JsMap.keys])
  have h0 : (Room.new id).getUserCount = 0 := rfl
  omega

/-! ## C5 -/

theorem length_combine_sortChunks (chunks : List Chunk) :
    (combine (sortChunks chunks)).length = (chunks.map (fun c => c.data.length)).sum := by
  have hperm : (sortChunks chunks).Perm chunks := List.perm_insertionSort _ _
  have hsum := (hperm.map (fun c : Chunk => c.data.length)).sum_eq
  rw [← hsum]
  simp [combine, List.length_flatten, Function.comp_def]

theorem foldl_size (results : List RecordingResult) (init : Nat) :
    results.foldl (fun sum r => sum + r.size) init
      = init + (results.map RecordingResult.size).sum := by
  induction results generalizing init with
  | nil => simp
  | cons r rest ih => simp [ih]; omega

theorem stopEach_eq (env : Env) (m : List (UserId × UserRecording)) :
    ∀ (room : Room) (results : List RecordingResult),
      room.userRecordings = m → (JsMap.keys m).Nodup →
      Room.stopEach env (JsMap.keys m) room results
        = ({ room with userRecordings := [] }, results ++ savedResults env m) := by
  induction m with
  | nil =>
    intro room results hm _
    cases room
    simp only at hm
    simp [Room.stopEach, JsMap.keys, savedResults, savedRecorders, hm]
  | cons e rest ih =>
    intro room results hm hnd
    obtain ⟨userId, userRecording⟩ := e
    have hnd' : (JsMap.keys rest).Nodup := by
      simp only [JsMap.keys, List.map_cons, List.nodup_cons] at hnd; exact hnd.2
    have hnot : JsMap.has rest userId = false := by
      cases hx : JsMap.has rest userId with
      | false => rfl
      | true =>
        simp only [JsMap.keys, List.map_cons, List.nodup_cons] at hnd
        exact absurd ((JsMap.has_iff_mem_keys rest userId).mp hx) hnd.1
    have hget : JsMap.get room.userRecordings userId = some userRecording := by
      simp [hm, JsMap.get]
    have hdel : JsMap.delete room.userRecordings userId = rest := by
      simp [hm, JsMap.delete, JsMap.delete_eq_self_of_has_false hnot]
    have hih := fun results =>
      ih { room with userRecordings := rest } results rfl hnd'
    simp only [JsMap.keys, List.map_cons, Room.stopEach]
    simp only [JsMap.keys] at hih
    by_cases hc : 0 < userRecording.chunks.length
    · by_cases hw : env.writeFinal userRecording.filePath = true
      · simp [Room.stopUserRecording, hget, hc, hw, hdel, hih, savedResults, savedRecorders,
          UserRecording.result, List.filter_cons]
      · simp [Room.stopUserRecording, hget, hc, hw, hdel, hih, savedResults, savedRecorders,
          List.filter_cons]
    · simp [Room.stopUserRecording, hget, hc, hdel, hih, savedResults, savedRecorders,
        List.filter_cons]

/-- C5 as stated fails: when the final write of a recorder's file throws,
`stopUserRecording` returns `null` in its `catch`, so a recorder that buffered
a chunk gets no descriptor and the summary is empty. -/
theorem C5_counterexample :
    (recordingRoom [(10, recorderOf 10 [{ data := [1, 2, 3], index := 0 }])]).stopRecordingSession
        (Env.allFail 2)
      = .ok { id := 1, users := [(10, { userId := 10, socketId := 100 })],
              isRecording := false, recordingSession := none, userRecordings := [] }
          (some ({ sessionId := 1, roomId := 1, userRecordings := [], totalFiles := 0,
                   totalSize := 0 }, [])) := by
  decide

/-- C5, amended: for a recording room, `stopRecordingSession` succeeds, clears the
session and the recorders, and returns a summary whose `userRecordings` holds,
in recorder order, exactly one descriptor (payload = the chunks in stable index
order, concatenated) per recorder that buffered at least one chunk and whose
final write did not throw; `totalFiles` is their number and `totalSize` the sum
of the byte lengths of all chunks buffered by those recorders. -/
theorem C5_summary_of_saved_recorders (env : Env) (room : Room) (session : RecordingSession)
    (hrec : room.isRecording = true) (hsess : room.recordingSession = some session)
    (hnodup : (JsMap.keys room.userRecordings).Nodup) :
    ∃ summary : SessionSummary,
      room.stopRecordingSession env
        = .ok { room with isRecording := false, recordingSession := none,
                          userRecordings := [] }
            (some (summary, summary.userRecordings)) ∧
      summary.userRecordings
        = (savedRecorders env room.userRecordings).map
            (fun e => UserRecording.result e.1 e.2) ∧
      summary.totalFiles = (savedRecorders env room.userRecordings).length ∧
      summary.totalSize
        = ((savedRecorders env room.userRecordings).map
            (fun e => (e.2.chunks.map (fun c => c.data.length)).sum)).sum := by
  have heach := stopEach_eq env room.userRecordings { room with isRecording := false } []
    rfl hnodup
  refine ⟨{ sessionId := session.id, roomId := room.id,
            userRecordings := savedResults env room.userRecordings,
            totalFiles := (savedResults env room.userRecordings).length,
            totalSize := (savedResults env room.userRecordings).foldl
              (fun sum r => sum + r.size) 0 }, ?_, rfl, ?_, ?_⟩
  · simp only [Room.stopRecordingSession, hrec, heach]
    simp [hsess]
  · simp [savedResults]
  · simp only [foldl_size, savedResults, List.map_map, Nat.zero_add]
    congr 1
    apply List.map_congr_left
    intro e _
    simp [UserRecording.result, length_combine_sortChunks]

/-- Witness for C5: A (user 10) has sent chunk 0 = `[1,2,3]` then chunk 1 = `[4,5]`, B
(user 11) has sent nothing: the summary has `totalSize = 5`, one file, and A's
payload is `[1,2,3,4,5]`. -/
theorem C5_summary_of_saved_recorders_witness :
    ∃ summary : SessionSummary,
      (recordingRoom [(10, recorderOf 10 [⟨[1, 2, 3], 0⟩, ⟨[4, 5], 1⟩]),
                      (11, recorderOf 11 [])]).stopRecordingSession (Env.allOk 2)
        = .ok (Room.mk 1 [(10, { userId := 10, socketId := 100 })] false none [])
            (some (summary, summary.userRecordings)) ∧
      summary.totalSize = 5 ∧ summary.totalFiles = 1 ∧
      summary.userRecordings.map RecordingResult.base64 = [[1, 2, 3, 4, 5]] := by
  obtain ⟨summary, h1, h2, h3, h4⟩ :=
    C5_summary_of_saved_recorders (Env.allOk 2)
      (recordingRoom [(10, recorderOf 10 [⟨[1, 2, 3], 0⟩, ⟨[4, 5], 1⟩]), (11, recorderOf 11 [])])
      { id := 1, users := [10] } rfl rfl (by decide)
  refine ⟨summary, h1, ?_, ?_, ?_⟩
  · rw [h4]; decide
  · rw [h3]; decide
  · rw [h2]; decide


/-! ## Well-formedness is kept by the methods of `Room` -/

theorem wf_new (id : RoomId) : (Room.new id).WF := by
  simp [Room.WF, Room.SessionInv, Room.new, JsMap.keys]

theorem wf_addUser {room : Room} (h : room.WF) (userId : UserId) (socketId : SocketId) :
    (room.addUser userId socketId).WF :=
  ⟨h.1, JsMap.nodup_keys_set _ _ h.2.1, h.2.2⟩

theorem wf_stopUserRecording {room : Room} (h : room.WF) (env : Env) (userId : UserId) :
    (room.stopUserRecording env userId).1.WF := by
  rw [stopUserRecording_room]
  exact ⟨h.1, h.2.1, JsMap.nodup_keys_delete _ h.2.2⟩

theorem wf_removeUser {room : Room} (h : room.WF) (env : Env) (userId : UserId) :
    (room.removeUser env userId).1.WF := by
  have hdel : Room.WF { room with users := JsMap.delete room.users userId } :=
    ⟨h.1, JsMap.nodup_keys_delete _ h.2.1, h.2.2⟩
  unfold Room.removeUser
  simp only
  split
  · split
    · exact wf_stopUserRecording hdel env userId
    · exact hdel
  · exact hdel

theorem wf_startUserRecording {room room1 : Room} {env : Env} {userId : UserId} {b : Bool}
    (h : room.WF) (hs : room.startUserRecording env userId = .ok room1 b) : room1.WF := by
  unfold Room.startUserRecording at hs
  split at hs
  · cases hs; exact h
  · split at hs
    · cases hs
    · simp only at hs
      split at hs
      · cases hs
        exact ⟨h.1, h.2.1, JsMap.nodup_keys_set _ _ h.2.2⟩
      · cases hs; exact h

theorem wf_startEach {env : Env} (userIds : List UserId) :
    ∀ {room room1 : Room}, room.WF → Room.startEach env userIds room = .ok room1 () →
      room1.WF := by
  induction userIds with
  | nil => intro room room1 h hs; cases hs; exact h
  | cons userId rest ih =>
    intro room room1 h hs
    simp only [Room.startEach] at hs
    split at hs
    · rename_i room2 b hstart
      exact ih (wf_startUserRecording h hstart) hs
    · cases hs

theorem wf_startRecordingSession {room room1 : Room} {env : Env} {session : RecordingSession}
    (h : room.WF) (hs : room.startRecordingSession env = .ok room1 session) : room1.WF := by
  unfold Room.startRecordingSession at hs
  simp only at hs
  split at hs
  · rename_i room2 u heach
    cases hs
    refine wf_startEach _ ?_ heach
    exact ⟨by simp [Room.SessionInv], h.2.1, h.2.2⟩
  · cases hs

theorem stopEach_fields (env : Env) (userIds : List UserId) :
    ∀ (room : Room) (results : List RecordingResult),
      (Room.stopEach env userIds room results).1.id = room.id ∧
      (Room.stopEach env userIds room results).1.users = room.users ∧
      (Room.stopEach env userIds room results).1.isRecording = room.isRecording ∧
      (Room.stopEach env userIds room results).1.recordingSession = room.recordingSession ∧
      ((JsMap.keys room.userRecordings).Nodup →
        (JsMap.keys (Room.stopEach env userIds room results).1.userRecordings).Nodup) := by
  induction userIds with
  | nil => intro room results; simp [Room.stopEach]
  | cons userId rest ih =>
    intro room results
    have hroom := stopUserRecording_room env room userId
    simp only [Room.stopEach]
    split
    · rename_i room1 result hstop
      have h1 : room1 = { room with userRecordings := JsMap.delete room.userRecordings userId } := by
        rw [← hroom, hstop]
      obtain ⟨i1, i2, i3, i4, i5⟩ := ih room1 (results ++ [result])
      subst h1
      exact ⟨i1, i2, i3, i4, fun hnd => i5 (JsMap.nodup_keys_delete _ hnd)⟩
    · rename_i room1 hstop
      have h1 : room1 = { room with userRecordings := JsMap.delete room.userRecordings userId } := by
        rw [← hroom, hstop]
      obtain ⟨i1, i2, i3, i4, i5⟩ := ih room1 results
      subst h1
      exact ⟨i1, i2, i3, i4, fun hnd => i5 (JsMap.nodup_keys_delete _ hnd)⟩

theorem wf_stopRecordingSession {room room1 : Room} {env : Env} {result : StopResult}
    (h : room.WF) (hs : room.stopRecordingSession env = .ok room1 result) : room1.WF := by
  unfold Room.stopRecordingSession at hs
  split at hs
  · cases hs; exact h
  · simp only at hs
    obtain ⟨-, i2, i3, -, i5⟩ := stopEach_fields env (JsMap.keys room.userRecordings)
      { room with isRecording := false } []
    split at hs
    · cases hs
    · cases hs
      refine ⟨by simp [Room.SessionInv, i3], ?_, i5 h.2.2⟩
      simp only [i2]; exact h.2.1

theorem wf_addUserAudioChunk {env : Env} (stack : Nat) :
    ∀ {room room1 : Room} {userId : UserId} {audioData : Option Bytes}
      {chunkIndex : Option Int} {b : Bool}, room.WF →
      room.addUserAudioChunk env stack userId audioData chunkIndex = .ok room1 b → room1.WF := by
  induction stack with
  | zero => intro room room1 userId audioData chunkIndex b _ hs; cases hs
  | succ n ih =>
    intro room room1 userId audioData chunkIndex b h hs
    simp only [Room.addUserAudioChunk] at hs
    split at hs
    · split at hs
      · split at hs
        · rename_i room2 b2 hstart
          exact ih (wf_startUserRecording h hstart) hs
        · cases hs
      · cases hs; exact h
    · split at hs
      · cases hs; exact h
      · cases hs
        exact ⟨h.1, h.2.1, JsMap.nodup_keys_set _ _ h.2.2⟩

theorem wf_getUserRecordingData {room : Room} (h : room.WF) (userId : UserId) :
    (room.getUserRecordingData userId).1.WF := by
  unfold Room.getUserRecordingData
  split
  · exact h
  · split
    · exact h
    · exact ⟨h.1, h.2.1, JsMap.nodup_keys_set _ _ h.2.2⟩

/-! ## Well-formedness is kept by the handlers -/

theorem roomsWF_get {rooms : List (RoomId × Room)} {roomId : RoomId} {room : Room}
    (h : RoomsWF rooms) (hg : JsMap.get rooms roomId = some room) : room.WF :=
  h.2 _ (JsMap.get_mem hg)

theorem roomsWF_set {rooms : List (RoomId × Room)} (h : RoomsWF rooms) (roomId : RoomId)
    {room : Room} (hr : room.WF) : RoomsWF (JsMap.set rooms roomId room) := by
  refine ⟨JsMap.nodup_keys_set _ _ h.1, ?_⟩
  intro e he
  rcases JsMap.mem_set he with he | he
  · exact h.2 e he
  · rw [he]; exact hr

theorem roomsWF_delete {rooms : List (RoomId × Room)} (h : RoomsWF rooms) (roomId : RoomId) :
    RoomsWF (JsMap.delete rooms roomId) :=
  ⟨JsMap.nodup_keys_delete _ h.1, fun e he => h.2 e (JsMap.mem_delete he)⟩

theorem roomsWF_cleanUpEmptyRoom {rooms rooms1 : List (RoomId × Room)} {roomId : RoomId}
    {room : Room} (h : RoomsWF rooms) (hc : cleanUpEmptyRoom rooms roomId room = .ok rooms1 ()) :
    RoomsWF rooms1 := by
  unfold cleanUpEmptyRoom at hc
  split at hc
  · split at hc
    · split at hc
      · rename_i rooms2 data hstop
        cases hc
        unfold stopRoomRecording at hstop
        split at hstop
        · split at hstop
          · cases hstop
          · cases hstop; exact roomsWF_delete h _
        · cases hstop; exact roomsWF_delete h _
      · cases hc
    · cases hc; exact roomsWF_delete h _
  · cases hc; exact h

theorem wf_onJoinRoom {env : Env} {s s1 : Server} {socket : SocketId} {roomId : Option RoomId}
    {userId : Option UserId} {out : List Emit} (h : s.WF)
    (hs : onJoinRoom env s socket roomId userId = .done s1 out) : s1.WF := by
  unfold onJoinRoom at hs
  split at hs
  · rename_i roomId userId
    simp only at hs
    have hleft : Server.WF
        (match JsMap.get s.userSockets socket with
          | some existingUserInfo =>
            match JsMap.get s.rooms existingUserInfo.roomId with
            | some old =>
              { s with joined := socketLeave s.joined socket existingUserInfo.roomId,
                       rooms := JsMap.set s.rooms existingUserInfo.roomId
                         (old.removeUser env existingUserInfo.userId).1 }
            | none => { s with joined := socketLeave s.joined socket existingUserInfo.roomId }
          | none => s) := by
      split
      · split
        · rename_i old hold
          exact ⟨roomsWF_set h.1 _ (wf_removeUser (roomsWF_get h.1 hold) env _), h.2⟩
        · exact h
      · exact h
    revert hs
    generalize (match JsMap.get s.userSockets socket with
          | some existingUserInfo =>
            match JsMap.get s.rooms existingUserInfo.roomId with
            | some old =>
              { s with joined := socketLeave s.joined socket existingUserInfo.roomId,
                       rooms := JsMap.set s.rooms existingUserInfo.roomId
                         (old.removeUser env existingUserInfo.userId).1 }
            | none => { s with joined := socketLeave s.joined socket existingUserInfo.roomId }
          | none => s) = left at hleft
    intro hs
    cases hs
    refine ⟨roomsWF_set hleft.1 _ (wf_addUser ?_ _ _), JsMap.nodup_keys_set _ _ hleft.2⟩
    split
    · rename_i existing hex
      exact roomsWF_get hleft.1 hex
    · exact wf_new _
  · cases hs; exact h

theorem wf_onLeaveRoom {env : Env} {s s1 : Server} {socket : SocketId} {roomId : RoomId}
    {userId : UserId} {out : List Emit} (h : s.WF)
    (hs : onLeaveRoom env s socket roomId userId = .done s1 out) : s1.WF := by
  unfold onLeaveRoom at hs
  split at hs
  · rename_i room hroom
    simp only at hs
    split at hs
    · rename_i rooms2 u hclean
      cases hs
      exact ⟨roomsWF_cleanUpEmptyRoom
        (roomsWF_set h.1 _ (wf_removeUser (roomsWF_get h.1 hroom) env _)) hclean,
        JsMap.nodup_keys_delete _ h.2⟩
    · cases hs
  · cases hs
    exact ⟨h.1, JsMap.nodup_keys_delete _ h.2⟩

theorem wf_onDisconnect {env : Env} {s s1 : Server} {socket : SocketId} {out : List Emit}
    (h : s.WF) (hs : onDisconnect env s socket = .done s1 out) : s1.WF := by
  unfold onDisconnect at hs
  simp only at hs
  split at hs
  · rename_i userInfo hinfo
    split at hs
    · rename_i room hroom
      split at hs
      · rename_i rooms2 u hclean
        cases hs
        exact ⟨roomsWF_cleanUpEmptyRoom
          (roomsWF_set h.1 _ (wf_removeUser (roomsWF_get h.1 hroom) env _)) hclean,
          JsMap.nodup_keys_delete _ h.2⟩
      · cases hs
    · cases hs
      exact ⟨h.1, JsMap.nodup_keys_delete _ h.2⟩
  · cases hs; exact h

theorem wf_onStartRecording {env : Env} {s s1 : Server} {socket : SocketId} {roomId : RoomId}
    {out : List Emit} (h : s.WF)
    (hs : onStartRecording env s socket roomId = .done s1 out) : s1.WF := by
  unfold onStartRecording at hs
  split at hs
  · rename_i room hroom
    split at hs
    · split at hs
      · rename_i room1 session hstart
        cases hs
        exact ⟨roomsWF_set h.1 _ (wf_startRecordingSession (roomsWF_get h.1 hroom) hstart), h.2⟩
      · cases hs
    · cases hs; exact h
  · cases hs; exact h

theorem wf_onStopRecording {env : Env} {s s1 : Server} {socket : SocketId} {roomId : RoomId}
    {out : List Emit} (h : s.WF)
    (hs : onStopRecording env s socket roomId = .done s1 out) : s1.WF := by
  unfold onStopRecording at hs
  split at hs
  · rename_i room hroom
    split at hs
    · split at hs
      · rename_i room1 session userRecordings hstop
        cases hs
        exact ⟨roomsWF_set h.1 _ (wf_stopRecordingSession (roomsWF_get h.1 hroom) hstop), h.2⟩
      · rename_i room1 hstop
        cases hs
        exact ⟨roomsWF_set h.1 _ (wf_stopRecordingSession (roomsWF_get h.1 hroom) hstop), h.2⟩
      · cases hs
    · cases hs; exact h
  · cases hs; exact h

theorem wf_onAudioChunk {env : Env} {s s1 : Server} {socket : SocketId} {roomId : RoomId}
    {audioData : AudioData} {chunkIndex : Option Int} {out : List Emit} (h : s.WF)
    (hs : onAudioChunk env s socket roomId audioData chunkIndex = .done s1 out) : s1.WF := by
  unfold onAudioChunk at hs
  split at hs
  · cases hs; exact h
  · split at hs
    · rename_i room hroom
      split at hs
      · split at hs
        · rename_i room1 hadd
          cases hs
          exact ⟨roomsWF_set h.1 _ (wf_addUserAudioChunk _ (roomsWF_get h.1 hroom) hadd), h.2⟩
        · rename_i room1 hadd
          cases hs
          exact ⟨roomsWF_set h.1 _ (wf_addUserAudioChunk _ (roomsWF_get h.1 hroom) hadd), h.2⟩
        · cases hs
      · split at hs <;> (cases hs; exact h)
    · cases hs; exact h

theorem wf_onGetRecording {s s1 : Server} {socket : SocketId} {roomId : RoomId}
    {requestedUserId : Option UserId} {out : List Emit} (h : s.WF)
    (hs : onGetRecording s socket roomId requestedUserId = .done s1 out) : s1.WF := by
  unfold onGetRecording at hs
  split at hs
  · cases hs; exact h
  · simp only at hs
    split at hs
    · rename_i room hroom
      cases hs
      exact ⟨roomsWF_set h.1 _ (wf_getUserRecordingData (roomsWF_get h.1 hroom) _), h.2⟩
    · cases hs; exact h

theorem wf_handle {env : Env} {s s1 : Server} {socket : SocketId} {ev : Event}
    {out : List Emit} (h : s.WF) (hs : handle env s socket ev = .done s1 out) : s1.WF := by
  cases ev with
  | connection => cases hs; exact h
  | joinRoom roomId userId => exact wf_onJoinRoom h hs
  | leaveRoom roomId userId => exact wf_onLeaveRoom h hs
  | startRecording roomId => exact wf_onStartRecording h hs
  | stopRecording roomId => exact wf_onStopRecording h hs
  | audioChunk roomId audioData chunkIndex => exact wf_onAudioChunk h hs
  | getRecording roomId userId => exact wf_onGetRecording h hs
  | getRecordingStatus roomId =>
    simp only [handle, onGetRecordingStatus] at hs
    split at hs <;> (cases hs; exact h)
  | webrtcOffer roomId targetUserId offer => cases hs; exact h
  | webrtcAnswer roomId targetUserId answer => cases hs; exact h
  | webrtcIceCandidate roomId targetUserId candidate => cases hs; exact h
  | disconnect => exact wf_onDisconnect h hs
  | getRoomInfo roomId =>
    simp only [handle, onGetRoomInfo] at hs
    split at hs <;> (cases hs; exact h)

theorem wf_of_reachable {env : Env} {s : Server} (h : Reachable env s) : s.WF := by
  induction h with
  | empty => exact ⟨⟨List.nodup_nil, fun e he => by cases he⟩, List.nodup_nil⟩
  | step socket ev _ hs ih => exact wf_handle ih hs


theorem reachable_run {env : Env} (events : List (SocketId × Event)) :
    ∀ {s : Server}, Reachable env s → (∃ s1 out, run env s events = .done s1 out) →
      Reachable env (run env s events).state := by
  induction events with
  | nil => intro s h _; exact h
  | cons e rest ih =>
    intro s h hdone
    obtain ⟨socket, ev⟩ := e
    obtain ⟨s1, out, hrun⟩ := hdone
    cases rest with
    | nil =>
      simp only [run] at hrun ⊢
      rw [hrun]
      exact Reachable.step socket ev h hrun
    | cons e2 rest2 =>
      simp only [run] at hrun ⊢
      cases hh : handle env s socket ev with
      | done s2 out2 =>
        rw [hh] at hrun
        simp only at hrun ⊢
        exact ih (Reachable.step socket ev h hh) ⟨s1, out, hrun⟩
      | crashed s2 out2 e =>
        rw [hh] at hrun
        cases hrun

/-! ## C3 -/

/-- C3: in every state reached from the empty server by client events handled to their
end, every room of the directory has `isRecording` true exactly when its
`recordingSession` is not `null`. -/
theorem C3_recording_iff_session (env : Env) (s : Server) (h : Reachable env s)
    (roomId : RoomId) (room : Room) (hroom : (roomId, room) ∈ s.rooms) :
    room.isRecording = true ↔ room.recordingSession ≠ none := by
  have hinv := ((wf_of_reachable h).1.2 _ hroom).1
  simp only [Room.SessionInv] at hinv
  rw [hinv, Option.isSome_iff_ne_none]

/-- Witness for C3: room 1 after user 10 joined, started a recording and sent a chunk. -/
theorem C3_recording_iff_session_witness :
    (recordingRoom [(10, recorderOf 10 [⟨[1, 2, 3], 0⟩])]).isRecording = true ↔
      (recordingRoom [(10, recorderOf 10 [⟨[1, 2, 3], 0⟩])]).recordingSession ≠ none :=
  C3_recording_iff_session (Env.allOk 2) (run (Env.allOk 2) Server.empty soloRecording).state
    (reachable_run soloRecording Reachable.empty ⟨_, _, rfl⟩) 1
    (recordingRoom [(10, recorderOf 10 [⟨[1, 2, 3], 0⟩])]) (by decide)

/-! ## C8 -/

theorem has_set_self {β : Type} (m : List (Nat × β)) (k : Nat) (v : β) :
    JsMap.has (JsMap.set m k v) k = true := by
  rw [JsMap.has_eq_isSome_get, JsMap.get_set_self]; rfl

/-- C8: when a connection bound to `(u, A)`, with `u` a member of room `A`, sends
`join-room` for another room `B` as user `v`, the handler runs to its end; room
`A` is then `A` after `removeUser(u)`, so `u` is no member of it and its count
is one less; `v` is a member of `B`; the connection has the one binding
`(v, B)`; and the directory is the one got by first storing `A` without `u` and
then adding `v` to the room found (or created) under `B`. -/
theorem C8_rejoin_moves_connection (env : Env) (s : Server) (socket : SocketId)
    (u v : UserId) (A B : RoomId) (roomA : Room) (hreach : Reachable env s)
    (hbind : JsMap.get s.userSockets socket = some { userId := u, roomId := A })
    (hroom : JsMap.get s.rooms A = some roomA) (hmem : roomA.hasUser u = true)
    (hne : B ≠ A) :
    ∃ (s1 : Server) (out : List Emit) (roomB1 : Room),
      handle env s socket (.joinRoom (some B) (some v)) = .done s1 out ∧
      JsMap.get s1.rooms A = some (roomA.removeUser env u).1 ∧
      (roomA.removeUser env u).1.hasUser u = false ∧
      (roomA.removeUser env u).1.getUserCount + 1 = roomA.getUserCount ∧
      JsMap.get s1.rooms B = some roomB1 ∧ roomB1.hasUser v = true ∧
      JsMap.get s1.userSockets socket = some { userId := v, roomId := B } ∧
      (JsMap.keys s1.userSockets).count socket = 1 ∧
      s1.rooms
        = JsMap.set (JsMap.set s.rooms A (roomA.removeUser env u).1) B
            ((match JsMap.get (JsMap.set s.rooms A (roomA.removeUser env u).1) B with
              | some existing => existing
              | none => Room.new B).addUser v socket) := by
  have hwf := wf_of_reachable hreach
  have hA : roomA.WF := roomsWF_get hwf.1 hroom
  have hsize := JsMap.size_delete roomA.users u hA.2.1
  simp only [Room.hasUser] at hmem
  rw [if_pos hmem] at hsize
  have hh : ∃ out, handle env s socket (.joinRoom (some B) (some v))
      = .done
          { rooms := JsMap.set (JsMap.set s.rooms A (roomA.removeUser env u).1) B
              ((match JsMap.get (JsMap.set s.rooms A (roomA.removeUser env u).1) B with
                | some existing => existing
                | none => Room.new B).addUser v socket),
            userSockets := JsMap.set s.userSockets socket { userId := v, roomId := B },
            joined := socketJoin (socketLeave s.joined socket A) socket B } out :=
    ⟨_, by simp only [handle, onJoinRoom, hbind, hroom]; rfl⟩
  obtain ⟨out, hh⟩ := hh
  refine ⟨_, out,
    (match JsMap.get (JsMap.set s.rooms A (roomA.removeUser env u).1) B with
      | some existing => existing
      | none => Room.new B).addUser v socket,
    hh, ?_, ?_, ?_, ?_, ?_, ?_, ?_, rfl⟩
  · simp only
    rw [JsMap.get_set_ne _ _ (Ne.symm hne), JsMap.get_set_self]
  · simp only [Room.hasUser, removeUser_users]
    exact JsMap.has_delete_self _ _
  · simp only [Room.getUserCount, removeUser_users]
    exact hsize
  · exact JsMap.get_set_self _ _ _
  · simp only [Room.hasUser, Room.addUser]
    exact has_set_self _ _ _
  · exact JsMap.get_set_self _ _ _
  · apply List.count_eq_one_of_mem (JsMap.nodup_keys_set _ _ hwf.2)
    exact (JsMap.has_iff_mem_keys _ _).mp (has_set_self _ _ _)

/-- Witness for C8: connection 100, bound to user 10 in room 1, joins room 2 as
user 10. -/
theorem C8_rejoin_moves_connection_witness :
    ∃ (s1 : Server) (out : List Emit),
      handle (Env.allOk 2)
          (run (Env.allOk 2) Server.empty
            [(100, .connection), (100, .joinRoom (some 1) (some 10))]).state
          100 (.joinRoom (some 2) (some 10)) = .done s1 out ∧
      JsMap.get s1.rooms 1 = some (Room.new 1) ∧
      JsMap.get s1.userSockets 100 = some { userId := 10, roomId := 2 } := by
  obtain ⟨s1, out, roomB1, h1, h2, -, -, -, -, h7, -, -⟩ :=
    C8_rejoin_moves_connection (Env.allOk 2)
      (run (Env.allOk 2) Server.empty
        [(100, .connection), (100, .joinRoom (some 1) (some 10))]).state
      100 10 10 1 2 ((Room.new 1).addUser 10 100)
      (reachable_run _ Reachable.empty ⟨_, _, rfl⟩) rfl rfl rfl (by decide)
  exact ⟨s1, out, h1, h2, h7⟩


/-! ## C11 -/

/-- C11: for a connection bound to `(u, r)`, the `disconnect` handler and the handler of
`leave-room{roomId: r, userId: u}` end the same way (both run to their end, or
both are left by the same exception) and leave the same room directory and the
same connection registry, in every starting state. -/
theorem C11_disconnect_like_leave (env : Env) (s : Server) (socket : SocketId) (u : UserId)
    (r : RoomId) (hbind : JsMap.get s.userSockets socket = some { userId := u, roomId := r }) :
    (handle env s socket .disconnect).state.rooms
      = (handle env s socket (.leaveRoom r u)).state.rooms ∧
    (handle env s socket .disconnect).state.userSockets
      = (handle env s socket (.leaveRoom r u)).state.userSockets ∧
    (handle env s socket .disconnect).error = (handle env s socket (.leaveRoom r u)).error := by
  simp only [handle, onDisconnect, onLeaveRoom, hbind]
  cases hroom : JsMap.get s.rooms r with
  | none => simp [Outcome.state, Outcome.error]
  | some room =>
    simp only
    cases hclean : cleanUpEmptyRoom (JsMap.set s.rooms r (room.removeUser env u).1) r
        (room.removeUser env u).1 with
    | ok rooms2 x => simp [Outcome.state, Outcome.error]
    | threw rooms2 e => simp [Outcome.state, Outcome.error]

/-- Witness for C11: connection 100 bound to user 10 in room 1, which has a second
member; both handlers leave room 1 with user 11 only and no binding for 100. -/
theorem C11_disconnect_like_leave_witness :
    (handle (Env.allOk 2)
        (run (Env.allOk 2) Server.empty
          [(100, .connection), (100, .joinRoom (some 1) (some 10)), (101, .connection),
           (101, .joinRoom (some 1) (some 11))]).state
        100 .disconnect).state.rooms
      = (handle (Env.allOk 2)
          (run (Env.allOk 2) Server.empty
            [(100, .connection), (100, .joinRoom (some 1) (some 10)), (101, .connection),
             (101, .joinRoom (some 1) (some 11))]).state
          100 (.leaveRoom 1 10)).state.rooms :=
  (C11_disconnect_like_leave (Env.allOk 2)
    (run (Env.allOk 2) Server.empty
      [(100, .connection), (100, .joinRoom (some 1) (some 10)), (101, .connection),
       (101, .joinRoom (some 1) (some 11))]).state
    100 10 1 rfl).1

/-! ## C12 -/

/-- C12 as stated fails: `leave-room` for a room that does not exist emits nothing and
still removes the sender's binding from `userSockets`; `audio-chunk` from a
bound connection for a room that does not exist emits nothing. -/
theorem C12_counterexample :
    handle (Env.allOk 2)
        { rooms := [(1, (Room.new 1).addUser 10 100)],
          userSockets := [(100, { userId := 10, roomId := 1 })],
          joined := [(100, 100), (100, 1)] }
        100 (.leaveRoom 2 10)
      = .done { rooms := [(1, (Room.new 1).addUser 10 100)], userSockets := [],
                joined := [(100, 100), (100, 1)] } [] ∧
    handle (Env.allOk 2)
        { rooms := [(1, (Room.new 1).addUser 10 100)],
          userSockets := [(100, { userId := 10, roomId := 1 })],
          joined := [(100, 100), (100, 1)] }
        100 (.audioChunk 2 (.base64 [1, 2, 3]) (some 0))
      = .done { rooms := [(1, (Room.new 1).addUser 10 100)],
                userSockets := [(100, { userId := 10, roomId := 1 })],
                joined := [(100, 100), (100, 1)] } [] := by
  decide

/-- C12, amended: when `roomId` names no room of the directory, the handlers of
`start-recording`, `stop-recording`, `get-recording`, `get-recording-status` and
`get-room-info` emit one error response to the sender and leave the server state
as it is; the handler of `audio-chunk` leaves the server state as it is; the
handler of `leave-room` emits nothing, leaves the directory as it is and removes
the sender's binding from the connection registry. -/
theorem C12_unknown_room (env : Env) (s : Server) (socket : SocketId) (roomId : RoomId)
    (hnone : JsMap.get s.rooms roomId = none) :
    handle env s socket (.startRecording roomId)
      = .done s [emitSocket socket (.recordingStartResponse false none (some .roomNotFound))] ∧
    handle env s socket (.stopRecording roomId)
      = .done s [emitSocket socket (.recordingStopResponse false none (some .roomNotFound))] ∧
    (∀ requestedUserId,
      handle env s socket (.getRecording roomId requestedUserId)
        = .done s [emitSocket socket (.getRecordingResponse false none none
            (some (match JsMap.get s.userSockets socket with
                   | some _ => .roomNotFound
                   | none => .userNotFound)))]) ∧
    handle env s socket (.getRecordingStatus roomId)
      = .done s [emitSocket socket
          (.recordingStatusResponse false none none (some .roomNotFound))] ∧
    handle env s socket (.getRoomInfo roomId)
      = .done s [emitSocket socket (.roomInfoError .roomNotFound)] ∧
    (∀ audioData chunkIndex,
      handle env s socket (.audioChunk roomId audioData chunkIndex)
        = .done s (match JsMap.get s.userSockets socket with
                   | some _ => []
                   | none => [emitSocket socket
                       (.audioChunkReceived false none none none (some .userNotFoundInRoom))])) ∧
    (∀ userId, handle env s socket (.leaveRoom roomId userId)
      = .done { s with userSockets := JsMap.delete s.userSockets socket,
                       joined := socketLeave s.joined socket roomId } []) := by
  refine ⟨?_, ?_, ?_, ?_, ?_, ?_, ?_⟩
  · simp [handle, onStartRecording, hnone]
  · simp [handle, onStopRecording, hnone]
  · intro requestedUserId
    cases hu : JsMap.get s.userSockets socket with
    | none => simp [handle, onGetRecording, hu]
    | some userInfo => simp [handle, onGetRecording, hu, hnone]
  · simp [handle, onGetRecordingStatus, hnone]
  · simp [handle, onGetRoomInfo, hnone]
  · intro audioData chunkIndex
    cases hu : JsMap.get s.userSockets socket with
    | none => simp [handle, onAudioChunk, hu]
    | some userInfo => simp [handle, onAudioChunk, hu, hnone]
  · intro userId
    simp [handle, onLeaveRoom, hnone]

/-- Witness for C12: `start-recording` for room 2 on a server that only has room 1. -/
theorem C12_unknown_room_witness :
    handle (Env.allOk 2) { rooms := [(1, Room.new 1)], userSockets := [], joined := [] } 100
        (.startRecording 2)
      = .done { rooms := [(1, Room.new 1)], userSockets := [], joined := [] }
          [emitSocket 100 (.recordingStartResponse false none (some .roomNotFound))] :=
  (C12_unknown_room (Env.allOk 2) { rooms := [(1, Room.new 1)], userSockets := [], joined := [] }
    100 2 rfl).1

/-! ## C14 -/

/-- C14 (code defect): after connection 100, the only member of room 1, joins room 2,
room 1 is still in the directory with no member and not recording; the
`join-room` handler calls `removeUser` on the old room but has no clean-up of
empty rooms, which `leave-room` and `disconnect` have. -/
theorem C14_join_leaves_empty_room :
    run (Env.allOk 2) Server.empty
        [(100, .connection), (100, .joinRoom (some 1) (some 10)),
         (100, .joinRoom (some 2) (some 10))]
      = .done
          { rooms := [(1, Room.new 1), (2, (Room.new 2).addUser 10 100)],
            userSockets := [(100, { userId := 10, roomId := 2 })],
            joined := [(100, 100), (100, 2)] }
          [ { recipients := [], msg := .userJoined 10 100 },
            { recipients := [100], msg := .roomJoined 2 10 [] false 1 },
            { recipients := [100],
              msg := .roomUpdated 2 1 [{ userId := 10, socketId := 100 }] } ] ∧
    (Room.new 1).getUserCount = 0 ∧ (Room.new 1).isRecording = false := by
  decide


/-! ## C13 -/

theorem keys_set_of_has {β : Type} {m : List (Nat × β)} {k : Nat} (v : β)
    (h : JsMap.has m k = true) : JsMap.keys (JsMap.set m k v) = JsMap.keys m := by
  rw [JsMap.keys_set, if_pos h]

theorem get_set {β : Type} (m : List (Nat × β)) (k other : Nat) (v : β) :
    JsMap.get (JsMap.set m k v) other = if other = k then some v else JsMap.get m other := by
  by_cases h : other = k
  · subst h; simp [JsMap.get_set_self]
  · simp [h, JsMap.get_set_ne m v h]

theorem getUserRecordingData_get (room : Room) (userId other : UserId) :
    JsMap.get (room.getUserRecordingData userId).1.userRecordings other
      = if other = userId then
          (JsMap.get room.userRecordings userId).map
            (fun r => { r with chunks := sortChunks r.chunks })
        else JsMap.get room.userRecordings other := by
  unfold Room.getUserRecordingData
  cases hg : JsMap.get room.userRecordings userId with
  | none =>
    by_cases h : other = userId
    · subst h; simp [hg]
    · simp [h]
  | some r =>
    by_cases hc : r.chunks.length = 0
    · have hnil : r.chunks = [] := List.length_eq_zero.mp hc
      by_cases h : other = userId
      · subst h
        cases r
        simp only at hnil
        subst hnil
        simp [hg, sortChunks]
      · simp [hc, h]
    · simp only [hc, if_false, get_set, Option.map_some']

/-- C13 as stated fails: `getUserRecordingData` sorts `userRecording.chunks` in place, so
a recorder that received the chunk with index 2 before the chunk with index 1
holds them in the other order after the call. -/
theorem C13_counterexample :
    ((recordingRoom [(10, recorderOf 10 [⟨[4, 5], 2⟩, ⟨[1, 2, 3], 1⟩])]).getUserRecordingData
        10).1
      = recordingRoom [(10, recorderOf 10 [⟨[1, 2, 3], 1⟩, ⟨[4, 5], 2⟩])] ∧
    ((recordingRoom [(10, recorderOf 10 [⟨[4, 5], 2⟩, ⟨[1, 2, 3], 1⟩])]).getUserRecordingData
        10).1
      ≠ recordingRoom [(10, recorderOf 10 [⟨[4, 5], 2⟩, ⟨[1, 2, 3], 1⟩])] := by
  decide

/-- C13, amended: `getUserRecordingData` keeps the room's id, members, `isRecording` and
session, keeps the same recorders registered in the same order, and leaves every
other user's recorder as it is; the user's own recorder keeps its chunks but
holds them afterwards in stable index order (a permutation of what it held). -/
theorem C13_getUserRecordingData_reorders_only (room : Room) (userId : UserId) :
    (room.getUserRecordingData userId).1.id = room.id ∧
    (room.getUserRecordingData userId).1.users = room.users ∧
    (room.getUserRecordingData userId).1.isRecording = room.isRecording ∧
    (room.getUserRecordingData userId).1.recordingSession = room.recordingSession ∧
    JsMap.keys (room.getUserRecordingData userId).1.userRecordings
      = JsMap.keys room.userRecordings ∧
    (∀ other, JsMap.get (room.getUserRecordingData userId).1.userRecordings other
      = if other = userId then
          (JsMap.get room.userRecordings userId).map
            (fun r => { r with chunks := sortChunks r.chunks })
        else JsMap.get room.userRecordings other) ∧
    (∀ chunks, (sortChunks chunks).Perm chunks) := by
  refine ⟨?_, ?_, ?_, ?_, ?_, getUserRecordingData_get room userId,
    fun chunks => List.perm_insertionSort _ chunks⟩
  all_goals
    unfold Room.getUserRecordingData
    cases hg : JsMap.get room.userRecordings userId with
    | none => rfl
    | some r =>
      by_cases hc : r.chunks.length = 0
      · simp only [hc, if_true]
      · first
          | (simp only [hc, if_false]; done)
          | (simp only [hc, if_false]
             exact keys_set_of_has _ (JsMap.has_of_get_some hg))

/-! ## C16 -/

/-- C16: in a recording room, `removeUser(u)` for a member `u` that has a recorder
returns `true`; the room afterwards is the room without `u`'s member entry after
`stopUserRecording(u)`, that is, without `u`'s entry in both maps; every other
member and every other recorder (with its chunks) is as before, and so are
`isRecording` and `recordingSession`. -/
theorem C16_removeUser_finalizes_recorder (env : Env) (room : Room) (u : UserId)
    (hrec : room.isRecording = true) (hmem : JsMap.has room.users u = true)
    (hhas : JsMap.has room.userRecordings u = true) :
    room.removeUser env u
      = ({ room with users := JsMap.delete room.users u,
                     userRecordings := JsMap.delete room.userRecordings u }, true) ∧
    (room.removeUser env u).1
      = (Room.stopUserRecording env { room with users := JsMap.delete room.users u } u).1 ∧
    JsMap.has (room.removeUser env u).1.users u = false ∧
    JsMap.has (room.removeUser env u).1.userRecordings u = false ∧
    (∀ v, v ≠ u → JsMap.get (room.removeUser env u).1.users v = JsMap.get room.users v) ∧
    (∀ v, v ≠ u →
      JsMap.get (room.removeUser env u).1.userRecordings v = JsMap.get room.userRecordings v) ∧
    (room.removeUser env u).1.isRecording = room.isRecording ∧
    (room.removeUser env u).1.recordingSession = room.recordingSession := by
  have heq : room.removeUser env u
      = ({ room with users := JsMap.delete room.users u,
                     userRecordings := JsMap.delete room.userRecordings u }, true) := by
    simp [Room.removeUser, hrec, hmem, hhas, stopUserRecording_room]
  refine ⟨heq, ?_, ?_, ?_, ?_, ?_, ?_, ?_⟩
  · rw [heq, stopUserRecording_room]
  · rw [heq]; exact JsMap.has_delete_self _ _
  · rw [heq]; exact JsMap.has_delete_self _ _
  · intro v hv; rw [heq]; exact JsMap.get_delete_ne _ hv
  · intro v hv; rw [heq]; exact JsMap.get_delete_ne _ hv
  · rw [heq]
  · rw [heq]

/-- Witness for C16: user 10, a member of recording room 1 with a recorder holding one
chunk, is removed. -/
theorem C16_removeUser_finalizes_recorder_witness :
    (recordingRoom [(10, recorderOf 10 [⟨[1, 2, 3], 0⟩])]).removeUser (Env.allOk 2) 10
      = ({ id := 1, users := [], isRecording := true,
           recordingSession := some { id := 1, users := [10] }, userRecordings := [] }, true) :=
  (C16_removeUser_finalizes_recorder (Env.allOk 2)
    (recordingRoom [(10, recorderOf 10 [⟨[1, 2, 3], 0⟩])]) 10 rfl rfl rfl).1


/-! ## C15 -/

theorem set_of_has_false {β : Type} {m : List (Nat × β)} {k : Nat} (v : β)
    (h : JsMap.has m k = false) : JsMap.set m k v = m ++ [(k, v)] := by
  induction m with
  | nil => rfl
  | cons e m ih =>
    obtain ⟨k', v'⟩ := e
    by_cases hk : k' = k
    · simp [JsMap.has, hk] at h
    · simp only [JsMap.has, hk, if_false] at h
      simp [JsMap.set, hk, ih h]

theorem set_append_last {β : Type} {m : List (Nat × β)} {k : Nat} (a b : β)
    (h : JsMap.has m k = false) : JsMap.set (m ++ [(k, a)]) k b = m ++ [(k, b)] := by
  induction m with
  | nil => simp [JsMap.set]
  | cons e m ih =>
    obtain ⟨k', v'⟩ := e
    by_cases hk : k' = k
    · simp [JsMap.has, hk] at h
    · simp only [JsMap.has, hk, if_false] at h
      simp [JsMap.set, hk, ih h]

theorem get_append_last {β : Type} {m : List (Nat × β)} {k : Nat} (a : β)
    (h : JsMap.has m k = false) : JsMap.get (m ++ [(k, a)]) k = some a := by
  rw [← set_of_has_false a h]; exact JsMap.get_set_self _ _ _

theorem addUserAudioChunk_of_recorder (env : Env) {room : Room} {userId : UserId}
    {userRecording : UserRecording} (stack : Nat) (data : Bytes) (chunkIndex : Option Int)
    (hg : JsMap.get room.userRecordings userId = some userRecording) :
    room.addUserAudioChunk env (stack + 1) userId (some data) chunkIndex
      = .ok (Room.mk room.id room.users room.isRecording room.recordingSession
              (JsMap.set room.userRecordings userId
                (UserRecording.mk userRecording.userId
                  (userRecording.chunks ++
                    [Chunk.mk data (indexOr chunkIndex userRecording.chunks.length)])
                  userRecording.filePath)))
          true := by
  simp [Room.addUserAudioChunk, hg]

/-- C15 as stated fails for a member without recorder in a recording room: when the
sink cannot be opened no recorder is created and the call ends in a RangeError
instead of returning `true`; when `Buffer.from` rejects the audio data the
recorder is created but stays empty and the call returns `false`. -/
theorem C15_counterexample :
    (recordingRoom []).addUserAudioChunk (Env.allFail 2) 2 10 (some [7, 8]) none
      = .threw (recordingRoom []) .rangeError ∧
    (recordingRoom []).addUserAudioChunk (Env.allOk 2) 2 10 none none
      = .ok (recordingRoom [(10, recorderOf 10 [])]) false := by
  decide

/-- C15, amended: with room for one retry on the stack, in a recording room
`addUserAudioChunk` for a member without recorder whose sink can be opened, with
audio data that decodes, registers a new recorder (last in the map) that holds
exactly that chunk, and returns `true`; for a user who is neither a member nor
has a recorder, and in a room that is not recording (which, as in every
reachable state, has no recorders), it returns `false` and changes nothing. -/
theorem C15_lazy_recorder (env : Env) (stack : Nat) (room : Room) (userId : UserId)
    (hstack : 2 ≤ stack) :
    (∀ session data chunkIndex, room.isRecording = true →
      room.recordingSession = some session → JsMap.has room.users userId = true →
      JsMap.get room.userRecordings userId = none →
      env.createWriteStream { session := session.id, user := userId } = true →
      room.addUserAudioChunk env stack userId (some data) chunkIndex
        = .ok { room with userRecordings := room.userRecordings ++
                  [(userId, { userId := userId,
                              chunks := [{ data := data, index := indexOr chunkIndex 0 }],
                              filePath := { session := session.id, user := userId } })] }
            true) ∧
    (∀ audioData chunkIndex, JsMap.has room.users userId = false →
      JsMap.get room.userRecordings userId = none →
      room.addUserAudioChunk env stack userId audioData chunkIndex = .ok room false) ∧
    (∀ audioData chunkIndex, room.isRecording = false → room.RecInv →
      room.addUserAudioChunk env stack userId audioData chunkIndex = .ok room false) := by
  obtain ⟨n, rfl⟩ : ∃ n, stack = n + 2 := ⟨stack - 2, by omega⟩
  refine ⟨?_, ?_, ?_⟩
  · intro session data chunkIndex hrec hsess hmem hnone hopen
    have hhas : JsMap.has room.userRecordings userId = false := by
      rw [JsMap.has_eq_isSome_get, hnone]; rfl
    have hstart : room.startUserRecording env userId
        = .ok { room with userRecordings := room.userRecordings ++
                  [(userId, { userId := userId, chunks := [],
                              filePath := { session := session.id, user := userId } })] }
            true := by
      simp [Room.startUserRecording, hrec, hhas, hsess, hopen, set_of_has_false _ hhas]
    rw [Room.addUserAudioChunk]
    simp only [hnone, hrec, hmem, hstart, Bool.and_self, if_true]
    rw [addUserAudioChunk_of_recorder env n data chunkIndex (get_append_last _ hhas)]
    simp [set_append_last _ _ hhas]
  · intro audioData chunkIndex hmem hnone
    simp [Room.addUserAudioChunk, hnone, hmem]
  · intro audioData chunkIndex hrec hinv
    have hnil := hinv.2 hrec
    simp [Room.addUserAudioChunk, hnil, JsMap.get, hrec]

/-- Witness for C15: user 10 is a member of recording room 1 and has no recorder yet. -/
theorem C15_lazy_recorder_witness :
    (recordingRoom []).addUserAudioChunk (Env.allOk 2) 2 10 (some [1, 2, 3]) none
      = .ok (recordingRoom [(10, recorderOf 10 [⟨[1, 2, 3], 0⟩])]) true :=
  (C15_lazy_recorder (Env.allOk 2) 2 (recordingRoom []) 10 (by decide)).1
    { id := 1, users := [10] } [1, 2, 3] none rfl rfl rfl rfl rfl


/-! ## Stable sorting: sorting a prefix first does not change the result -/

section Sorting

variable {α : Type} (r : α → α → Prop) [DecidableRel r] [IsTotal α r] [IsTrans α r]

theorem orderedInsert_comm (t x : α) (hxt : ¬ r x t) (l : List α) :
    (l.orderedInsert r x).orderedInsert r t = (l.orderedInsert r t).orderedInsert r x := by
  have htx : r t x := (IsTotal.total t x).resolve_right hxt
  induction l with
  | nil => simp [List.orderedInsert, htx, hxt]
  | cons b l ih =>
    by_cases hxb : r x b
    · have htb : r t b := IsTrans.trans t x b htx hxb
      simp [List.orderedInsert, hxb, htb, htx, hxt]
    · by_cases htb : r t b
      · simp [List.orderedInsert, hxb, htb, hxt]
      · simp [List.orderedInsert, hxb, htb, ih]

theorem foldr_orderedInsert_orderedInsert (s : List α) (x : α) (l : List α) :
    List.foldr (fun a acc => acc.orderedInsert r a) s (l.orderedInsert r x)
      = (List.foldr (fun a acc => acc.orderedInsert r a) s l).orderedInsert r x := by
  induction l with
  | nil => rfl
  | cons t l ih =>
    by_cases hxt : r x t
    · simp [List.orderedInsert, hxt]
    · simp only [List.orderedInsert, hxt, if_false, List.foldr_cons, ih]
      exact orderedInsert_comm r t x hxt _

theorem foldr_orderedInsert_insertionSort (s l : List α) :
    List.foldr (fun a acc => acc.orderedInsert r a) s (l.insertionSort r)
      = List.foldr (fun a acc => acc.orderedInsert r a) s l := by
  induction l with
  | nil => rfl
  | cons x l ih =>
    simp only [List.insertionSort, List.foldr_cons, foldr_orderedInsert_orderedInsert, ih]

omit [IsTotal α r] [IsTrans α r] in
theorem insertionSort_append (l₁ l₂ : List α) :
    (l₁ ++ l₂).insertionSort r
      = List.foldr (fun a acc => acc.orderedInsert r a) (l₂.insertionSort r) l₁ := by
  induction l₁ with
  | nil => rfl
  | cons x l ih => simp [List.insertionSort, ih]

theorem insertionSort_append_congr {l₁ l₁' : List α} (l₂ : List α)
    (h : l₁.insertionSort r = l₁'.insertionSort r) :
    (l₁ ++ l₂).insertionSort r = (l₁' ++ l₂).insertionSort r := by
  rw [insertionSort_append, insertionSort_append, ← foldr_orderedInsert_insertionSort r _ l₁,
    ← foldr_orderedInsert_insertionSort r _ l₁', h]

end Sorting

theorem jsOr_zero (x : Int) : jsOr x 0 = x := by
  unfold jsOr; split <;> simp_all

theorem sortChunks_append_congr {chunks chunks1 : List Chunk} (more : List Chunk)
    (h : sortChunks chunks = sortChunks chunks1) :
    sortChunks (chunks ++ more) = sortChunks (chunks1 ++ more) := by
  haveI : IsTotal Chunk (fun a b => jsOr a.index 0 ≤ jsOr b.index 0) :=
    ⟨fun a b => le_total _ _⟩
  haveI : IsTrans Chunk (fun a b => jsOr a.index 0 ≤ jsOr b.index 0) :=
    ⟨fun a b c hab hbc => le_trans hab hbc⟩
  exact insertionSort_append_congr _ more h

theorem sorted_sortChunks (chunks : List Chunk) :
    (sortChunks chunks).Pairwise (fun a b => a.index ≤ b.index) := by
  haveI : IsTotal Chunk (fun a b => jsOr a.index 0 ≤ jsOr b.index 0) :=
    ⟨fun a b => le_total _ _⟩
  haveI : IsTrans Chunk (fun a b => jsOr a.index 0 ≤ jsOr b.index 0) :=
    ⟨fun a b c hab hbc => le_trans hab hbc⟩
  have h := List.sorted_insertionSort (fun a b : Chunk => jsOr a.index 0 ≤ jsOr b.index 0) chunks
  exact List.Pairwise.imp (fun hab => by simpa [jsOr_zero] using hab) h

theorem sortChunks_sortChunks (chunks : List Chunk) :
    sortChunks (sortChunks chunks) = sortChunks chunks := by
  haveI : IsTotal Chunk (fun a b => jsOr a.index 0 ≤ jsOr b.index 0) :=
    ⟨fun a b => le_total _ _⟩
  haveI : IsTrans Chunk (fun a b => jsOr a.index 0 ≤ jsOr b.index 0) :=
    ⟨fun a b c hab hbc => le_trans hab hbc⟩
  exact List.Sorted.insertionSort_eq (List.sorted_insertionSort _ chunks)

theorem length_sortChunks (chunks : List Chunk) : (sortChunks chunks).length = chunks.length :=
  List.length_insertionSort _ chunks


/-! ## C19 -/

/-- Two rooms whose recorder of `userId` differs at most in the order of its chunks,
the stable index order of the chunks being the same. -/
theorem stopUserRecording_congr {env : Env} {room roomB : Room} {userId : UserId}
    {rec recB : UserRecording}
    (hg : JsMap.get room.userRecordings userId = some rec)
    (hgB : JsMap.get roomB.userRecordings userId = some recB)
    (hpath : rec.filePath = recB.filePath)
    (hsort : sortChunks rec.chunks = sortChunks recB.chunks) :
    (room.stopUserRecording env userId).2 = (roomB.stopUserRecording env userId).2 := by
  have hlen : rec.chunks.length = recB.chunks.length := by
    rw [← length_sortChunks rec.chunks, hsort, length_sortChunks]
  simp only [Room.stopUserRecording, hg, hgB, hpath, hsort, hlen]
  split <;> [split; skip] <;> rfl

theorem finalizeAfterCalls_congr (env : Env) (stack : Nat) (userId : UserId)
    (calls : List RecorderCall) :
    ∀ (room roomB : Room) (rec recB : UserRecording),
      JsMap.get room.userRecordings userId = some rec →
      JsMap.get roomB.userRecordings userId = some recB →
      rec.filePath = recB.filePath → sortChunks rec.chunks = sortChunks recB.chunks →
      ∃ result, room.finalizeAfterCalls env (stack + 1) userId calls = some result ∧
        roomB.finalizeAfterCalls env (stack + 1) userId (withoutGetData calls)
          = some result := by
  induction calls with
  | nil =>
    intro room roomB rec recB hg hgB hpath hsort
    exact ⟨_, rfl, by
      simp only [withoutGetData, Room.finalizeAfterCalls, Room.recorderCalls]
      rw [stopUserRecording_congr hg hgB hpath hsort]⟩
  | cons c rest ih =>
    intro room roomB rec recB hg hgB hpath hsort
    have hlen : rec.chunks.length = recB.chunks.length := by
      rw [← length_sortChunks rec.chunks, hsort, length_sortChunks]
    cases c with
    | addChunk audioData chunkIndex =>
      cases audioData with
      | none =>
        have h1 : room.addUserAudioChunk env (stack + 1) userId none chunkIndex
            = .ok room false := by simp [Room.addUserAudioChunk, hg]
        have h2 : roomB.addUserAudioChunk env (stack + 1) userId none chunkIndex
            = .ok roomB false := by simp [Room.addUserAudioChunk, hgB]
        obtain ⟨result, e1, e2⟩ := ih room roomB rec recB hg hgB hpath hsort
        refine ⟨result, ?_, ?_⟩
        · simpa [Room.finalizeAfterCalls, Room.recorderCalls, h1] using e1
        · simpa [withoutGetData, Room.finalizeAfterCalls, Room.recorderCalls, h2] using e2
      | some data =>
        have h1 := addUserAudioChunk_of_recorder env stack data chunkIndex hg
        have h2 := addUserAudioChunk_of_recorder env stack data chunkIndex hgB
        obtain ⟨result, e1, e2⟩ := ih
          (Room.mk room.id room.users room.isRecording room.recordingSession
            (JsMap.set room.userRecordings userId
              (UserRecording.mk rec.userId
                (rec.chunks ++ [Chunk.mk data (indexOr chunkIndex rec.chunks.length)])
                rec.filePath)))
          (Room.mk roomB.id roomB.users roomB.isRecording roomB.recordingSession
            (JsMap.set roomB.userRecordings userId
              (UserRecording.mk recB.userId
                (recB.chunks ++ [Chunk.mk data (indexOr chunkIndex recB.chunks.length)])
                recB.filePath)))
          _ _ (JsMap.get_set_self _ _ _) (JsMap.get_set_self _ _ _) hpath
          (by
            simp only [hlen]
            exact sortChunks_append_congr _ hsort)
        refine ⟨result, ?_, ?_⟩
        · simpa [Room.finalizeAfterCalls, Room.recorderCalls, h1] using e1
        · simpa [withoutGetData, Room.finalizeAfterCalls, Room.recorderCalls, h2] using e2
    | getData target =>
      have hget := getUserRecordingData_get room target userId
      by_cases ht : userId = target
      · subst ht
        simp only [if_true, hg, Option.map_some'] at hget
        obtain ⟨result, e1, e2⟩ := ih _ roomB _ recB hget hgB hpath
          (by simp only [sortChunks_sortChunks]; exact hsort)
        exact ⟨result, by simpa [Room.finalizeAfterCalls, Room.recorderCalls] using e1,
          by simpa [withoutGetData] using e2⟩
      · simp only [ht, if_false, hg] at hget
        obtain ⟨result, e1, e2⟩ := ih _ roomB rec recB hget hgB hpath hsort
        exact ⟨result, by simpa [Room.finalizeAfterCalls, Room.recorderCalls] using e1,
          by simpa [withoutGetData] using e2⟩

/-- C19: for a user with a recorder, and with room on the stack for one call, the
object `stopUserRecording` returns after any sequence of `addUserAudioChunk`
calls (any audio data, with or without index) interleaved with any number of
`getUserRecordingData` calls (for any user) is the object it returns after the
same sequence without the `getUserRecordingData` calls. -/
theorem C19_getData_does_not_change_finalize (env : Env) (stack : Nat) (room : Room)
    (userId : UserId) (userRecording : UserRecording) (calls : List RecorderCall)
    (hrec : JsMap.get room.userRecordings userId = some userRecording) (hstack : 1 ≤ stack) :
    ∃ result, room.finalizeAfterCalls env stack userId calls = some result ∧
      room.finalizeAfterCalls env stack userId (withoutGetData calls) = some result := by
  obtain ⟨n, rfl⟩ : ∃ n, stack = n + 1 := ⟨stack - 1, by omega⟩
  exact finalizeAfterCalls_congr env n userId calls room room userRecording userRecording
    hrec hrec rfl rfl

/-- Witness for C19: chunks with indices 2 and 1 arrive, the data is read, a chunk
without index arrives, the data is read again; the descriptor, with payload
`[1,2,3,4,5,6]`, is the one got without the two reads. -/
theorem C19_getData_does_not_change_finalize_witness :
    (∃ result,
      (recordingRoom [(10, recorderOf 10 [])]).finalizeAfterCalls (Env.allOk 2) 2 10
          [.addChunk (some [4, 5]) (some 2), .addChunk (some [1, 2, 3]) (some 1), .getData 10,
           .addChunk (some [6]) none, .getData 10] = some result ∧
      (recordingRoom [(10, recorderOf 10 [])]).finalizeAfterCalls (Env.allOk 2) 2 10
          (withoutGetData
            [.addChunk (some [4, 5]) (some 2), .addChunk (some [1, 2, 3]) (some 1),
             .getData 10, .addChunk (some [6]) none, .getData 10]) = some result) ∧
    (recordingRoom [(10, recorderOf 10 [])]).finalizeAfterCalls (Env.allOk 2) 2 10
        [.addChunk (some [4, 5]) (some 2), .addChunk (some [1, 2, 3]) (some 1), .getData 10,
         .addChunk (some [6]) none, .getData 10]
      = some (some (RecordingResult.mk 10 { session := 1, user := 10 } 6 3
          [1, 2, 3, 4, 5, 6])) :=
  ⟨C19_getData_does_not_change_finalize (Env.allOk 2) 2 (recordingRoom [(10, recorderOf 10 [])])
      10 (recorderOf 10 [])
      [.addChunk (some [4, 5]) (some 2), .addChunk (some [1, 2, 3]) (some 1), .getData 10,
       .addChunk (some [6]) none, .getData 10] rfl (by decide),
   by decide⟩


/-! ## C17 -/

theorem set_get_self {β : Type} {m : List (Nat × β)} {k : Nat} {v : β}
    (h : JsMap.get m k = some v) : JsMap.set m k v = m := by
  induction m with
  | nil => simp [JsMap.get] at h
  | cons e m ih =>
    obtain ⟨k', v'⟩ := e
    by_cases hk : k' = k
    · simp only [JsMap.get, hk, if_true, Option.some.injEq] at h
      simp [JsMap.set, hk, h]
    · simp only [JsMap.get, hk, if_false] at h
      simp [JsMap.set, hk, ih h]

theorem set_set {β : Type} (m : List (Nat × β)) (k : Nat) (a b : β) :
    JsMap.set (JsMap.set m k a) k b = JsMap.set m k b := by
  induction m with
  | nil => simp [JsMap.set]
  | cons e m ih =>
    obtain ⟨k', v'⟩ := e
    by_cases hk : k' = k <;> simp [JsMap.set, hk, ih]

theorem addEach_explicit (env : Env) (stack : Nat) (userId : UserId)
    (arrivals : List (Bytes × Option Int)) :
    ∀ (room : Room) (rec : UserRecording),
      JsMap.get room.userRecordings userId = some rec →
      (∀ a ∈ arrivals, ∃ i, a.2 = some i ∧ i ≠ 0) →
      Room.addEach env (stack + 1) userId arrivals room
        = .ok (Room.mk room.id room.users room.isRecording room.recordingSession
                (JsMap.set room.userRecordings userId
                  (UserRecording.mk rec.userId (rec.chunks ++ arrivals.map arrivalChunk)
                    rec.filePath))) () := by
  induction arrivals with
  | nil =>
    intro room rec hg _
    cases room
    cases rec
    simp only at hg
    simp [Room.addEach, set_get_self hg]
  | cons a rest ih =>
    intro room rec hg hall
    obtain ⟨data, index⟩ := a
    obtain ⟨i, hi, hi0⟩ := hall (data, index) (List.mem_cons_self _ _)
    simp only at hi
    subst hi
    have hadd := addUserAudioChunk_of_recorder env stack data (some i) hg
    have hidx : indexOr (some i) rec.chunks.length = i := by
      simp [indexOr, jsOr, hi0]
    rw [hidx] at hadd
    simp only [Room.addEach, hadd]
    rw [ih _ _ (JsMap.get_set_self _ _ _) (fun a ha => hall a (List.mem_cons_of_mem _ ha))]
    simp [set_set, arrivalChunk]

theorem indexedFrom_explicit (ds : List Bytes) :
    ∀ (start : Nat), ∀ a ∈ indexedFrom start ds, ∃ i, a.2 = some i ∧ (start : Int) ≤ i := by
  induction ds with
  | nil => intro start a ha; simp [indexedFrom] at ha
  | cons d ds ih =>
    intro start a ha
    simp only [indexedFrom, List.mem_cons] at ha
    rcases ha with ha | ha
    · subst ha; exact ⟨_, rfl, le_refl _⟩
    · obtain ⟨i, h1, h2⟩ := ih (start + 1) a ha
      exact ⟨i, h1, by push_cast at h2; omega⟩

theorem indexedFrom_data (ds : List Bytes) :
    ∀ (start : Nat), ((indexedFrom start ds).map arrivalChunk).map Chunk.data = ds := by
  induction ds with
  | nil => intro start; rfl
  | cons d ds ih => intro start; simp [indexedFrom, arrivalChunk, ih]

theorem indexedFrom_length (ds : List Bytes) :
    ∀ (start : Nat), (indexedFrom start ds).length = ds.length := by
  induction ds with
  | nil => intro start; rfl
  | cons d ds ih => intro start; simp [indexedFrom, ih]

theorem indexedFrom_sorted (ds : List Bytes) :
    ∀ (start : Nat),
      ((indexedFrom start ds).map arrivalChunk).Pairwise (fun a b => a.index < b.index) := by
  induction ds with
  | nil => intro start; exact List.Pairwise.nil
  | cons d ds ih =>
    intro start
    simp only [indexedFrom, List.map_cons, List.pairwise_cons]
    refine ⟨?_, ih (start + 1)⟩
    intro c hc
    obtain ⟨a, ha, rfl⟩ := List.mem_map.mp hc
    obtain ⟨i, h1, h2⟩ := indexedFrom_explicit ds (start + 1) a ha
    simp only [arrivalChunk, h1]
    push_cast at h2
    omega

theorem sortChunks_eq_of_perm {chunks target : List Chunk} (hperm : chunks.Perm target)
    (hsorted : target.Pairwise (fun a b => a.index < b.index)) : sortChunks chunks = target := by
  haveI : IsAntisymm Chunk (fun a b => a.index < b.index) :=
    ⟨fun a b h1 h2 => absurd h1 (not_lt.mpr (le_of_lt h2))⟩
  have hp : (sortChunks chunks).Perm target := (List.perm_insertionSort _ chunks).trans hperm
  have hne : (sortChunks chunks).Pairwise (fun a b => a.index ≠ b.index) :=
    (hp.pairwise_iff (fun {a b} (h : a.index ≠ b.index) => Ne.symm h)).mpr
      (hsorted.imp (fun h => ne_of_lt h))
  have hlt : (sortChunks chunks).Pairwise (fun a b => a.index < b.index) :=
    ((sorted_sortChunks chunks).and hne).imp (fun h => lt_of_le_of_ne h.1 h.2)
  exact List.eq_of_perm_of_sorted hp hlt hsorted

/-- C17 as stated fails: when the final write throws, `stopUserRecording` returns `null`
although index 0 came first. -/
theorem C17_counterexample :
    (recordingRoom [(10, recorderOf 10 [])]).finalizeAfter (Env.allFail 2) 2 10
        [([1, 2, 3], some 0), ([4, 5], some 1)] = none := by
  decide

/-- C17, amended: when the chunk with explicit index 0 is the first chunk of a recorder,
the remaining chunks carry the indices 1..n-1 and arrive in any order, and the
final write does not throw, `stopUserRecording` returns the payloads
concatenated in ascending index order, with `size` the sum of the payload
lengths and `chunks` equal to n. -/
theorem C17_index_zero_first (env : Env) (stack : Nat) (room : Room) (userId : UserId)
    (userRecording : UserRecording) (d0 : Bytes) (ds : List Bytes)
    (rest : List (Bytes × Option Int))
    (hrec : JsMap.get room.userRecordings userId = some userRecording)
    (hfresh : userRecording.chunks = []) (hperm : rest.Perm (indexedFrom 1 ds))
    (hstack : 1 ≤ stack) (hsave : env.writeFinal userRecording.filePath = true) :
    room.finalizeAfter env stack userId ((d0, some 0) :: rest)
      = some (RecordingResult.mk userId userRecording.filePath
          ((d0 :: ds).map List.length).sum (ds.length + 1) (d0 :: ds).flatten) := by
  obtain ⟨n, rfl⟩ : ∃ n, stack = n + 1 := ⟨stack - 1, by omega⟩
  have hfirst := addUserAudioChunk_of_recorder env n d0 (some 0) hrec
  have hidx : indexOr (some 0) userRecording.chunks.length = 0 := by
    simp [indexOr, jsOr, hfresh]
  rw [hidx, hfresh] at hfirst
  have hall : ∀ a ∈ rest, ∃ i, a.2 = some i ∧ i ≠ 0 := by
    intro a ha
    obtain ⟨i, h1, h2⟩ := indexedFrom_explicit ds 1 a (hperm.subset ha)
    exact ⟨i, h1, by push_cast at h2; omega⟩
  have heach := addEach_explicit env n userId rest
    (Room.mk room.id room.users room.isRecording room.recordingSession
      (JsMap.set room.userRecordings userId
        (UserRecording.mk userRecording.userId ([] ++ [Chunk.mk d0 0]) userRecording.filePath)))
    _ (JsMap.get_set_self _ _ _) hall
  have hsort : sortChunks (Chunk.mk d0 0 :: rest.map arrivalChunk)
      = Chunk.mk d0 0 :: (indexedFrom 1 ds).map arrivalChunk := by
    apply sortChunks_eq_of_perm ((hperm.map arrivalChunk).cons _)
    refine List.pairwise_cons.mpr ⟨?_, indexedFrom_sorted ds 1⟩
    intro c hc
    obtain ⟨a, ha, rfl⟩ := List.mem_map.mp hc
    obtain ⟨i, h1, h2⟩ := indexedFrom_explicit ds 1 a ha
    simp only [arrivalChunk, h1]
    push_cast at h2
    omega
  have hlen : (rest.map arrivalChunk).length = ds.length := by
    rw [List.length_map, hperm.length_eq, indexedFrom_length]
  simp only [Room.finalizeAfter, Room.addEach, hfirst, heach]
  simp only [Room.stopUserRecording, set_set, JsMap.get_set_self, List.nil_append,
    List.singleton_append, hsort, hsave, combine, List.map_cons, indexedFrom_data,
    List.length_cons, hlen]
  simp [List.length_flatten]

/-- Witness for C17: index 0 carrying `[1,2,3]` arrives first, then index 2 carrying
`[6]` and index 1 carrying `[4,5]`. -/
theorem C17_index_zero_first_witness :
    (recordingRoom [(10, recorderOf 10 [])]).finalizeAfter (Env.allOk 2) 2 10
        [([1, 2, 3], some 0), ([6], some 2), ([4, 5], some 1)]
      = some (RecordingResult.mk 10 { session := 1, user := 10 } 6 3 [1, 2, 3, 4, 5, 6]) :=
  C17_index_zero_first (Env.allOk 2) 2 (recordingRoom [(10, recorderOf 10 [])]) 10
    (recorderOf 10 []) [1, 2, 3] [[4, 5], [6]] [([6], some 2), ([4, 5], some 1)] rfl rfl
    (List.Perm.swap _ _ _) (by decide) rfl


/-! ## A property that the methods keep holds in every reachable room -/

theorem all_set {P : Room → Prop} {rooms : List (RoomId × Room)} (roomId : RoomId)
    {room : Room} (h : ∀ e ∈ rooms, P e.2) (hr : P room) :
    ∀ e ∈ JsMap.set rooms roomId room, P e.2 := by
  intro e he
  rcases JsMap.mem_set he with he | he
  · exact h e he
  · rw [he]; exact hr

theorem all_delete {P : Room → Prop} {rooms : List (RoomId × Room)} (roomId : RoomId)
    (h : ∀ e ∈ rooms, P e.2) : ∀ e ∈ JsMap.delete rooms roomId, P e.2 :=
  fun e he => h e (JsMap.mem_delete he)

theorem all_get {P : Room → Prop} {rooms : List (RoomId × Room)} {roomId : RoomId}
    {room : Room} (h : ∀ e ∈ rooms, P e.2) (hg : JsMap.get rooms roomId = some room) : P room :=
  h _ (JsMap.get_mem hg)

theorem all_cleanUpEmptyRoom {P : Room → Prop} {rooms rooms1 : List (RoomId × Room)}
    {roomId : RoomId} {room : Room} (h : ∀ e ∈ rooms, P e.2)
    (hc : cleanUpEmptyRoom rooms roomId room = .ok rooms1 ()) : ∀ e ∈ rooms1, P e.2 := by
  unfold cleanUpEmptyRoom at hc
  split at hc
  · split at hc
    · split at hc
      · rename_i rooms2 data hstop
        cases hc
        unfold stopRoomRecording at hstop
        split at hstop
        · split at hstop
          · cases hstop
          · cases hstop; exact all_delete _ h
        · cases hstop; exact all_delete _ h
      · cases hc
    · cases hc; exact all_delete _ h
  · cases hc; exact h

theorem handle_keeps {env : Env} {P : Room → Prop} (hk : Room.Keeps env P) {s s1 : Server}
    {socket : SocketId} {ev : Event} {out : List Emit} (h : ∀ e ∈ s.rooms, P e.2)
    (hs : handle env s socket ev = .done s1 out) : ∀ e ∈ s1.rooms, P e.2 := by
  cases ev with
  | connection => cases hs; exact h
  | joinRoom roomId userId =>
    simp only [handle, onJoinRoom] at hs
    split at hs
    · rename_i roomId userId
      have hleft : ∀ e ∈ (match JsMap.get s.userSockets socket with
          | some existingUserInfo =>
            match JsMap.get s.rooms existingUserInfo.roomId with
            | some old =>
              { s with joined := socketLeave s.joined socket existingUserInfo.roomId,
                       rooms := JsMap.set s.rooms existingUserInfo.roomId
                         (old.removeUser env existingUserInfo.userId).1 }
            | none => { s with joined := socketLeave s.joined socket existingUserInfo.roomId }
          | none => s).rooms, P e.2 := by
        split
        · split
          · rename_i old hold
            exact all_set _ h (hk.removeUser _ _ (all_get h hold))
          · exact h
        · exact h
      revert hs
      generalize (match JsMap.get s.userSockets socket with
          | some existingUserInfo =>
            match JsMap.get s.rooms existingUserInfo.roomId with
            | some old =>
              { s with joined := socketLeave s.joined socket existingUserInfo.roomId,
                       rooms := JsMap.set s.rooms existingUserInfo.roomId
                         (old.removeUser env existingUserInfo.userId).1 }
            | none => { s with joined := socketLeave s.joined socket existingUserInfo.roomId }
          | none => s) = left at hleft
      intro hs
      cases hs
      refine all_set _ hleft (hk.addUser _ _ _ ?_)
      split
      · rename_i existing hex
        exact all_get hleft hex
      · exact hk.new _
    · cases hs; exact h
  | leaveRoom roomId userId =>
    simp only [handle, onLeaveRoom] at hs
    split at hs
    · rename_i room hroom
      split at hs
      · rename_i rooms2 u hclean
        cases hs
        exact all_cleanUpEmptyRoom (all_set _ h (hk.removeUser _ _ (all_get h hroom))) hclean
      · cases hs
    · cases hs; exact h
  | startRecording roomId =>
    simp only [handle, onStartRecording] at hs
    split at hs
    · rename_i room hroom
      split at hs
      · split at hs
        · rename_i room1 session hstart
          cases hs
          exact all_set _ h (hk.startRecordingSession _ _ _ (all_get h hroom) hstart)
        · cases hs
      · cases hs; exact h
    · cases hs; exact h
  | stopRecording roomId =>
    simp only [handle, onStopRecording] at hs
    split at hs
    · rename_i room hroom
      split at hs
      · split at hs
        · rename_i room1 session userRecordings hstop
          cases hs
          exact all_set _ h (hk.stopRecordingSession _ _ _ (all_get h hroom) hstop)
        · rename_i room1 hstop
          cases hs
          exact all_set _ h (hk.stopRecordingSession _ _ _ (all_get h hroom) hstop)
        · cases hs
      · cases hs; exact h
    · cases hs; exact h
  | audioChunk roomId audioData chunkIndex =>
    simp only [handle, onAudioChunk] at hs
    split at hs
    · cases hs; exact h
    · split at hs
      · rename_i room hroom
        split at hs
        · split at hs
          · rename_i room1 hadd
            cases hs
            exact all_set _ h (hk.addUserAudioChunk _ _ _ _ _ _ _ (all_get h hroom) hadd)
          · rename_i room1 hadd
            cases hs
            exact all_set _ h (hk.addUserAudioChunk _ _ _ _ _ _ _ (all_get h hroom) hadd)
          · cases hs
        · split at hs <;> (cases hs; exact h)
      · cases hs; exact h
  | getRecording roomId userId =>
    simp only [handle, onGetRecording] at hs
    split at hs
    · cases hs; exact h
    · split at hs
      · rename_i room hroom
        cases hs
        exact all_set _ h (hk.getUserRecordingData _ _ (all_get h hroom))
      · cases hs; exact h
  | getRecordingStatus roomId =>
    simp only [handle, onGetRecordingStatus] at hs
    split at hs <;> (cases hs; exact h)
  | webrtcOffer roomId targetUserId offer => cases hs; exact h
  | webrtcAnswer roomId targetUserId answer => cases hs; exact h
  | webrtcIceCandidate roomId targetUserId candidate => cases hs; exact h
  | disconnect =>
    simp only [handle, onDisconnect] at hs
    split at hs
    · rename_i userInfo hinfo
      split at hs
      · rename_i room hroom
        split at hs
        · rename_i rooms2 u hclean
          cases hs
          exact all_cleanUpEmptyRoom (all_set _ h (hk.removeUser _ _ (all_get h hroom))) hclean
        · cases hs
      · cases hs; exact h
    · cases hs; exact h
  | getRoomInfo roomId =>
    simp only [handle, onGetRoomInfo] at hs
    split at hs <;> (cases hs; exact h)

theorem reachable_keeps {env : Env} {P : Room → Prop} (hk : Room.Keeps env P) {s : Server}
    (h : Reachable env s) : ∀ e ∈ s.rooms, P e.2 := by
  induction h with
  | empty => intro e he; cases he
  | step socket ev _ hs ih => exact handle_keeps hk ih hs


/-! ## C18 -/

theorem has_set_iff {β : Type} (m : List (Nat × β)) (k other : Nat) (v : β) :
    JsMap.has (JsMap.set m k v) other = true ↔ other = k ∨ JsMap.has m other = true := by
  rw [JsMap.has_eq_isSome_get, get_set, JsMap.has_eq_isSome_get]
  by_cases h : other = k <;> simp [h]

theorem has_delete_iff {β : Type} (m : List (Nat × β)) (k other : Nat) :
    JsMap.has (JsMap.delete m k) other = true ↔ other ≠ k ∧ JsMap.has m other = true := by
  by_cases h : other = k
  · subst h; simp [JsMap.has_delete_self]
  · rw [JsMap.has_eq_isSome_get, JsMap.get_delete_ne m h, JsMap.has_eq_isSome_get]
    simp [h]

theorem has_nil_of_eq {β : Type} {m : List (Nat × β)} (h : m = []) (k : Nat) :
    JsMap.has m k = false := by
  subst h; rfl

theorem recInv_addUser {room : Room} (h : room.RecInv) (userId : UserId)
    (socketId : SocketId) : (room.addUser userId socketId).RecInv :=
  ⟨fun v hv => (has_set_iff _ _ _ _).mpr (Or.inr (h.1 v hv)), h.2⟩

theorem recInv_removeUser {room : Room} (h : room.RecInv) (env : Env) (userId : UserId) :
    (room.removeUser env userId).1.RecInv := by
  unfold Room.removeUser
  simp only
  split
  · split
    · rw [stopUserRecording_room]
      refine ⟨?_, ?_⟩
      · intro v hv
        obtain ⟨hne, hv⟩ := (has_delete_iff _ _ _).mp hv
        exact (has_delete_iff _ _ _).mpr ⟨hne, h.1 v hv⟩
      · intro hrec
        have hnil := h.2 hrec
        simp only at hnil ⊢
        rw [hnil]; rfl
    · rename_i hcond
      refine ⟨?_, h.2⟩
      intro v hv
      simp only at hv ⊢
      refine (has_delete_iff _ _ _).mpr ⟨?_, h.1 v hv⟩
      intro hvu
      subst hvu
      cases hrec : room.isRecording with
      | false => rw [has_nil_of_eq (h.2 hrec)] at hv; cases hv
      | true => exact hcond (by simp [hrec, hv])
  · rename_i hmem
    refine ⟨?_, h.2⟩
    intro v hv
    simp only at hv ⊢
    refine (has_delete_iff _ _ _).mpr ⟨?_, h.1 v hv⟩
    intro hvu
    subst hvu
    exact hmem (h.1 v hv)

theorem startUserRecording_ok {env : Env} {room room1 : Room} {userId : UserId} {b : Bool}
    (hs : room.startUserRecording env userId = .ok room1 b) :
    room1.users = room.users ∧ room1.isRecording = room.isRecording ∧
    ∀ v, JsMap.has room1.userRecordings v = true →
      (v = userId ∧ room.isRecording = true) ∨ JsMap.has room.userRecordings v = true := by
  unfold Room.startUserRecording at hs
  split at hs
  · cases hs; exact ⟨rfl, rfl, fun v hv => Or.inr hv⟩
  · rename_i hcond
    split at hs
    · cases hs
    · simp only at hs
      split at hs
      · cases hs
        refine ⟨rfl, rfl, ?_⟩
        intro v hv
        rcases (has_set_iff _ _ _ _).mp hv with hv | hv
        · refine Or.inl ⟨hv, ?_⟩
          cases hrec : room.isRecording with
          | false => exact absurd (by simp [hrec]) hcond
          | true => rfl
        · exact Or.inr hv
      · cases hs; exact ⟨rfl, rfl, fun v hv => Or.inr hv⟩

theorem recInv_startUserRecording {env : Env} {room room1 : Room} {userId : UserId} {b : Bool}
    (h : room.RecInv) (hmem : JsMap.has room.users userId = true)
    (hs : room.startUserRecording env userId = .ok room1 b) :
    room1.RecInv ∧ room1.users = room.users ∧ room1.isRecording = room.isRecording := by
  obtain ⟨hu, hr, hrecs⟩ := startUserRecording_ok hs
  refine ⟨⟨?_, ?_⟩, hu, hr⟩
  · intro v hv
    rw [hu]
    rcases hrecs v hv with ⟨hv, -⟩ | hv
    · rw [hv]; exact hmem
    · exact h.1 v hv
  · intro hrec
    rw [hr] at hrec
    cases hlist : room1.userRecordings with
    | nil => rfl
    | cons e rest =>
      have hv : JsMap.has room1.userRecordings e.1 = true := by
        rw [hlist]; simp [JsMap.has]
      rcases hrecs e.1 hv with ⟨-, hr1⟩ | hv1
      · rw [hrec] at hr1; cases hr1
      · rw [has_nil_of_eq (h.2 hrec)] at hv1; cases hv1

theorem recInv_startEach {env : Env} (userIds : List UserId) :
    ∀ {room room1 : Room}, room.RecInv →
      (∀ v ∈ userIds, JsMap.has room.users v = true) →
      Room.startEach env userIds room = .ok room1 () → room1.RecInv := by
  induction userIds with
  | nil => intro room room1 h _ hs; cases hs; exact h
  | cons userId rest ih =>
    intro room room1 h hmem hs
    simp only [Room.startEach] at hs
    split at hs
    · rename_i room2 b hstart
      obtain ⟨hinv, hu, -⟩ :=
        recInv_startUserRecording h (hmem userId (List.mem_cons_self _ _)) hstart
      refine ih hinv ?_ hs
      intro v hv
      rw [hu]
      exact hmem v (List.mem_cons_of_mem _ hv)
    · cases hs

theorem recInv_startRecordingSession {env : Env} {room room1 : Room}
    {session : RecordingSession} (h : room.RecInv)
    (hs : room.startRecordingSession env = .ok room1 session) : room1.RecInv := by
  unfold Room.startRecordingSession at hs
  simp only at hs
  split at hs
  · rename_i room2 u heach
    cases hs
    refine recInv_startEach _ ?_ ?_ heach
    · exact ⟨h.1, fun hrec => by simp at hrec⟩
    · intro v hv
      exact (JsMap.has_iff_mem_keys _ _).mpr hv
  · cases hs

theorem recInv_stopRecordingSession {env : Env} {room room1 : Room} {result : StopResult}
    (hwf : room.WF) (h : room.RecInv)
    (hs : room.stopRecordingSession env = .ok room1 result) : room1.RecInv := by
  unfold Room.stopRecordingSession at hs
  split at hs
  · cases hs; exact h
  · simp only at hs
    have heach := stopEach_eq env room.userRecordings { room with isRecording := false } []
      rfl hwf.2.2
    simp only [heach] at hs
    split at hs
    · cases hs
    · cases hs
      exact ⟨fun v hv => by simp [JsMap.has] at hv, fun _ => rfl⟩

theorem recInv_addUserAudioChunk {env : Env} (stack : Nat) :
    ∀ {room room1 : Room} {userId : UserId} {audioData : Option Bytes}
      {chunkIndex : Option Int} {b : Bool}, room.RecInv →
      room.addUserAudioChunk env stack userId audioData chunkIndex = .ok room1 b →
      room1.RecInv := by
  induction stack with
  | zero => intro room room1 userId audioData chunkIndex b _ hs; cases hs
  | succ n ih =>
    intro room room1 userId audioData chunkIndex b h hs
    simp only [Room.addUserAudioChunk] at hs
    split at hs
    · split at hs
      · rename_i hcond
        split at hs
        · rename_i room2 b2 hstart
          have hmem : JsMap.has room.users userId = true := by
            simp only [Bool.and_eq_true] at hcond; exact hcond.2
          exact ih (recInv_startUserRecording h hmem hstart).1 hs
        · cases hs
      · cases hs; exact h
    · rename_i userRecording hg
      split at hs
      · cases hs; exact h
      · cases hs
        refine ⟨?_, ?_⟩
        · intro v hv
          rcases (has_set_iff _ _ _ _).mp hv with hv | hv
          · rw [hv]; exact h.1 userId (JsMap.has_of_get_some hg)
          · exact h.1 v hv
        · intro hrec
          have hnil := h.2 hrec
          rw [hnil] at hg
          simp [JsMap.get] at hg

theorem recInv_getUserRecordingData {room : Room} (h : room.RecInv) (userId : UserId) :
    (room.getUserRecordingData userId).1.RecInv := by
  unfold Room.getUserRecordingData
  split
  · exact h
  · rename_i userRecording hg
    split
    · exact h
    · refine ⟨?_, ?_⟩
      · intro v hv
        rcases (has_set_iff _ _ _ _).mp hv with hv | hv
        · rw [hv]; exact h.1 userId (JsMap.has_of_get_some hg)
        · exact h.1 v hv
      · intro hrec
        have hnil := h.2 hrec
        rw [hnil] at hg
        simp [JsMap.get] at hg

theorem keeps_wf_recInv (env : Env) : Room.Keeps env (fun room => room.WF ∧ room.RecInv) where
  new := fun id => ⟨wf_new id, fun v hv => by simp [Room.new, JsMap.has] at hv, fun _ => rfl⟩
  addUser := fun _ userId socketId h =>
    ⟨wf_addUser h.1 userId socketId, recInv_addUser h.2 userId socketId⟩
  removeUser := fun _ userId h =>
    ⟨wf_removeUser h.1 env userId, recInv_removeUser h.2 env userId⟩
  startRecordingSession := fun _ _ _ h hs =>
    ⟨wf_startRecordingSession h.1 hs, recInv_startRecordingSession h.2 hs⟩
  stopRecordingSession := fun _ _ _ h hs =>
    ⟨wf_stopRecordingSession h.1 hs, recInv_stopRecordingSession h.1 h.2 hs⟩
  addUserAudioChunk := fun stack _ _ _ _ _ _ h hs =>
    ⟨wf_addUserAudioChunk stack h.1 hs, recInv_addUserAudioChunk stack h.2 hs⟩
  getUserRecordingData := fun _ userId h =>
    ⟨wf_getUserRecordingData h.1 userId, recInv_getUserRecordingData h.2 userId⟩

/-- C18: in every state reached from the empty server by events handled to their end,
in every room each user that has a recorder is a member of the room, and a room
that is not recording has no recorders. -/
theorem C18_recorders_belong_to_members (env : Env) (s : Server) (h : Reachable env s)
    (roomId : RoomId) (room : Room) (hroom : (roomId, room) ∈ s.rooms) :
    (∀ userId, JsMap.has room.userRecordings userId = true →
      JsMap.has room.users userId = true) ∧
    (room.isRecording = false → room.userRecordings = []) :=
  (reachable_keeps (keeps_wf_recInv env) h (roomId, room) hroom).2

/-- Witness for C18: room 1 after user 10 joined, started a recording and sent a chunk:
user 10, who has the one recorder, is a member. -/
theorem C18_recorders_belong_to_members_witness :
    JsMap.has (recordingRoom [(10, recorderOf 10 [⟨[1, 2, 3], 0⟩])]).users 10 = true :=
  (C18_recorders_belong_to_members (Env.allOk 2)
    (run (Env.allOk 2) Server.empty soloRecording).state
    (reachable_run soloRecording Reachable.empty ⟨_, _, rfl⟩) 1
    (recordingRoom [(10, recorderOf 10 [⟨[1, 2, 3], 0⟩])]) (by decide)).1 10 rfl

end VoiceChat
